import Mathlib

/-!
Verification development for the ward-boundary geospatial pipeline
(`citizens-app/src/utils/geoUtils.js`, the `useGeoJSON` hook, and the
server-side ward import route).

Conventions of the shallow embedding:
* JavaScript numbers are modelled as exact rationals (`ℚ`); timestamps as `ℤ`
  (milliseconds).
* A GeoJSON coordinate pair `[longitude, latitude]` is a `ℚ × ℚ` with `.1` the
  longitude and `.2` the latitude, exactly as the code indexes `coord[0]` /
  `coord[1]`.
* Absent JavaScript values (`undefined` / `null`) are `Option.none`; the
  relevant property keys of the free-form `properties` bags are modelled as a
  structure of `Option String` fields, with the JavaScript truthiness of a
  string value (`""` is falsy) made explicit.
* The external `simplify-geojson` library used by `simplifyGeoJSON` is not part
  of this repository; it is a parameter (`primary`) of the embedded function.
-/

/-- A `{latitude, longitude}` object, as used by `isPointInPolygon` and friends. -/
structure GeoPoint where
  latitude : ℚ
  longitude : ℚ
deriving DecidableEq

/-- The geometry of a GeoJSON feature.  `Polygon` coordinates are a list of
rings (each a list of `[lng, lat]` pairs); `MultiPolygon` coordinates are a
list of polygons.  `other` stands for a missing geometry or a type the code
does not handle. -/
inductive Geometry where
  | polygon (coordinates : List (List (ℚ × ℚ)))
  | multiPolygon (coordinates : List (List (List (ℚ × ℚ))))
  | other
deriving DecidableEq

/-- The property keys the repository ever reads from a feature's `properties`
bag.  A missing key (or a missing `properties` object altogether) is `none`. -/
structure Properties where
  id : Option String
  WARD_ID : Option String
  ward_id : Option String
  name : Option String
  WARD_NAME : Option String
  municipality : Option String
  MUNICIPALITY : Option String
deriving DecidableEq

/-- An all-absent properties bag. -/
def Properties.empty : Properties :=
  ⟨none, none, none, none, none, none, none⟩

structure Feature where
  geometry : Geometry
  properties : Properties
deriving DecidableEq

structure FeatureCollection where
  features : List Feature
deriving DecidableEq

/-- Map viewport bounds: `{northEast, southWest}` corners. -/
structure Bounds where
  northEast : GeoPoint
  southWest : GeoPoint
deriving DecidableEq

/-- JavaScript truthiness of an optional string value: `undefined` and `""`
are falsy. -/
def truthy : Option String → Bool
  | none => false
  | some s => !(s.isEmpty)

/-- JavaScript `a || b` on optional string values. -/
def orJS (a b : Option String) : Option String :=
  if truthy a then a else b

/-! ### `isPointInPolygon` (geoUtils.js lines 9-23)

```js
for (let i = 0, j = polygon.length - 1; i < polygon.length; j = i++) {
  const xi = polygon[i][0], yi = polygon[i][1];
  const xj = polygon[j][0], yj = polygon[j][1];
  if (((yi > lat) !== (yj > lat)) && (lng < (xj - xi) * (lat - yi) / (yj - yi) + xi)) {
    inside = !inside;
  }
}
```
When `yi == yj` the first conjunct is false and `&&` short-circuits, so the
division is never evaluated on a zero denominator; the Lean total division
agrees on every path that is reached. -/

/-- The loop-body condition of `isPointInPolygon` at index `i` (with
`j = i-1`, wrapping to `polygon.length - 1` at `i = 0`). -/
def pipCond (lat lng : ℚ) (polygon : List (ℚ × ℚ)) (i : ℕ) : Bool :=
  let j := if i = 0 then polygon.length - 1 else i - 1
  let pcur := polygon.getD i (0, 0)
  let pprev := polygon.getD j (0, 0)
  decide ((pcur.2 > lat) ≠ (pprev.2 > lat)) &&
    decide (lng < (pprev.1 - pcur.1) * (lat - pcur.2) / (pprev.2 - pcur.2) + pcur.1)

/-- Ray-casting point-in-polygon test, `geoUtils.isPointInPolygon`. -/
def isPointInPolygon (point : GeoPoint) (polygon : List (ℚ × ℚ)) : Bool :=
  (List.range polygon.length).foldl
    (fun inside i =>
      if pipCond point.latitude point.longitude polygon i then !inside else inside)
    false

/-! ### `findWardForPoint` (geoUtils.js lines 31-51) -/

/-- Whether the loop body of `findWardForPoint` accepts `feature` for `point`:
a `Polygon` is tested on its primary ring `coordinates[0]̀`, a `MultiPolygon`
on the primary ring `polygon[0]` of each of its polygons.  (For a well-formed
feature these rings exist; on an empty `coordinates` array the JavaScript
would pass `undefined` to `isPointInPolygon` and throw, a case outside every
claim, modelled here by the empty ring, on which the test is `false`.) -/
def featureContains (point : GeoPoint) (feature : Feature) : Bool :=
  match feature.geometry with
  | .polygon coordinates => isPointInPolygon point (coordinates.getD 0 [])
  | .multiPolygon coordinates =>
      coordinates.any (fun polygon => isPointInPolygon point (polygon.getD 0 []))
  | .other => false

/-- `geoUtils.findWardForPoint`: first feature (in collection order) whose
polygon contains the point; `none` when the point or the collection is
absent, or when no feature matches. -/
def findWardForPoint (point : Option GeoPoint) (geoJsonData : Option FeatureCollection) :
    Option Feature :=
  match geoJsonData, point with
  | some g, some p => g.features.find? (featureContains p)
  | _, _ => none

/-! ### `isPointInBounds` / `filterGeoJSONByBounds` (geoUtils.js lines 154-202) -/

/-- `geoUtils.isPointInBounds`: inclusive range check; vacuously true when the
bounds or the point argument is absent. -/
def isPointInBounds (point : Option GeoPoint) (bounds : Option Bounds) : Bool :=
  match bounds, point with
  | some b, some p =>
      decide (p.latitude ≥ b.southWest.latitude) &&
      decide (p.latitude ≤ b.northEast.latitude) &&
      decide (p.longitude ≥ b.southWest.longitude) &&
      decide (p.longitude ≤ b.northEast.longitude)
  | _, _ => true

/-- The fixed 0.01-degree expansion applied to the viewport before testing. -/
def expandBounds (b : Bounds) : Bounds :=
  { northEast := ⟨b.northEast.latitude + 1/100, b.northEast.longitude + 1/100⟩
    southWest := ⟨b.southWest.latitude - 1/100, b.southWest.longitude - 1/100⟩ }

/-- The per-feature bounds test of `filterGeoJSONByBounds` (after the stride
guard): features without geometry coordinates are dropped; otherwise
`coordinates[0] || []` is scanned for a vertex inside the expanded bounds.
For a `MultiPolygon`, `coordinates[0]` is a polygon (a list of rings), so the
JavaScript compares numbers against coordinate *arrays*; those comparisons
evaluate on `NaN` and are false, hence the test never accepts such an
element — modelled by `false`. -/
def featureVertexTest (b : Bounds) (feature : Feature) : Bool :=
  match feature.geometry with
  | .polygon coordinates =>
      (coordinates.getD 0 []).any
        (fun coord => isPointInBounds (some ⟨coord.2, coord.1⟩) (some b))
  | .multiPolygon coordinates =>
      (coordinates.getD 0 []).any (fun _ => false)
  | .other => false

/-- `geoUtils.filterGeoJSONByBounds`.  The stride guard
`index % 2 !== 0 && features.length > 50` drops odd-indexed features of large
collections before the bounds test. -/
def filterGeoJSONByBounds (geojson : Option FeatureCollection) (bounds : Option Bounds) :
    Option FeatureCollection :=
  match geojson, bounds with
  | none, _ => none
  | some g, none => some g
  | some g, some b =>
      let expandedBounds := expandBounds b
      let filteredFeatures :=
        (g.features.enum.filter (fun p =>
          if p.1 % 2 ≠ 0 ∧ g.features.length > 50 then false
          else featureVertexTest expandedBounds p.2)).map Prod.snd
      some { g with features := filteredFeatures }

/-! ### `simplifyGeoJSON` (geoUtils.js lines 116-146) -/

/-- The secondary hard cap of `simplifyGeoJSON` on one ring (lines 127-134):
for rings longer than 100 points, keep every `step`-th point with
`step = Math.ceil(coords.length / 50)`, then re-append the original last
point if the stride dropped it.  The JavaScript re-append guard
`reducedCoords[reducedCoords.length-1] !== coords[coords.length-1]` compares
object identity; since the filtered list holds the very array objects of
`coords`, its last element *is* `coords[coords.length-1]` exactly when index
`coords.length - 1` survived the stride, i.e. when
`(coords.length - 1) % step = 0`. -/
def strideDecimate (coords : List (ℚ × ℚ)) (step : ℕ) : List (ℚ × ℚ) :=
  let reducedCoords :=
    ((List.range coords.length).filter (fun index => index % step = 0)).map
      (fun index => coords.getD index (0, 0))
  if (coords.length - 1) % step = 0 then reducedCoords
  else reducedCoords ++ [coords.getD (coords.length - 1) (0, 0)]

def hardCapRing (coords : List (ℚ × ℚ)) : List (ℚ × ℚ) :=
  if coords.length > 100 then
    strideDecimate coords ((coords.length + 49) / 50)
  else coords

/-- The per-feature map of `simplifyGeoJSON`: the hard cap rewrites only the
primary ring of a `Polygon` that has one. -/
def hardCapFeature (feature : Feature) : Feature :=
  match feature.geometry with
  | .polygon (ring0 :: rest) => { feature with geometry := .polygon (hardCapRing ring0 :: rest) }
  | _ => feature

/-- `geoUtils.simplifyGeoJSON`, parameterised by the external
`simplify-geojson` library call (`primary`); after the library pass every
feature goes through the manual hard cap.  (The surrounding `try/catch`
returns the input unchanged if the library throws; `primary` is total here.) -/
def simplifyGeoJSON (primary : FeatureCollection → FeatureCollection)
    (geojson : FeatureCollection) : FeatureCollection :=
  let simplified := primary geojson
  { simplified with features := simplified.features.map hardCapFeature }

/-- A ring is closed when it is non-empty and its first point equals its last
point. -/
def closedRing (r : List (ℚ × ℚ)) : Prop :=
  r ≠ [] ∧ r.getD 0 (0, 0) = r.getD (r.length - 1) (0, 0)

/-- Every `Polygon` feature of the collection that has a primary ring has a
closed one. -/
def closedPrimaryRings (c : FeatureCollection) : Prop :=
  ∀ f ∈ c.features,
    match f.geometry with
    | .polygon (ring0 :: _) => closedRing ring0
    | _ => True

/-! ### The `useGeoJSON` hook (cache, load cycle, viewport filtering)

`AsyncStorage` holds at most the one blob stored under `GEOJSON_CACHE_KEY`;
it is modelled as an `Option StoredBlob`.  A stored blob either parses to a
`{data, timestamp}` pair or is unreadable (`JSON.parse` throws). -/

/-- `CACHE_EXPIRY_HOURS = 2`. -/
def CACHE_EXPIRY_HOURS : ℚ := 2

/-- The cached blob under `cached_wards_geojson`: either a parsable
`{data, timestamp}` payload (timestamp in milliseconds) or an unreadable one. -/
inductive StoredBlob where
  | ok (data : FeatureCollection) (timestamp : ℤ)
  | corrupt
deriving DecidableEq

/-- `getCachedGeoJSON` (hook lines 87-106): returns the parsed data plus the
storage state it leaves behind.  An absent entry is a miss; an entry older
than `CACHE_EXPIRY_HOURS` is removed and reported as a miss; an unreadable
entry is caught and reported as a miss without touching storage. -/
def getCachedGeoJSON (store : Option StoredBlob) (now : ℤ) :
    Option FeatureCollection × Option StoredBlob :=
  match store with
  | none => (none, none)
  | some .corrupt => (none, some .corrupt)
  | some (.ok data timestamp) =>
      let cacheAge : ℚ := ((now - timestamp : ℤ) : ℚ) / (1000 * 60 * 60)
      if cacheAge > CACHE_EXPIRY_HOURS then (none, none)
      else (some data, some (.ok data timestamp))

/-- The property-pruning step of `loadGeoJSON` (hook lines 62-73): keep only
`{id, name, municipality}`, resolving each through its two key spellings. -/
def pruneFeature (feature : Feature) : Feature :=
  { geometry := feature.geometry
    properties :=
      { Properties.empty with
        id := orJS feature.properties.id feature.properties.WARD_ID
        name := orJS feature.properties.name feature.properties.WARD_NAME
        municipality :=
          orJS feature.properties.municipality feature.properties.MUNICIPALITY } }

/-- Simplification followed by property pruning, as applied to every freshly
fetched collection before it is cached (hook lines 58-73). -/
def optimizeGeoJSON (primary : FeatureCollection → FeatureCollection)
    (raw : FeatureCollection) : FeatureCollection :=
  let simplifiedGeoJSON := simplifyGeoJSON primary raw
  { simplifiedGeoJSON with features := simplifiedGeoJSON.features.map pruneFeature }

/-- The network environment of one load cycle: `primaryResp` is the parsed
collection of a successful `API_BASE_URL` fetch (`none` covers both a thrown
fetch and a non-`ok` response, which the code turns into a thrown error);
`fallbackResp` likewise for the GitHub fallback URL. -/
structure LoadEnv where
  primaryResp : Option FeatureCollection
  fallbackResp : Option FeatureCollection
  now : ℤ

/-- How one load cycle ended: which source satisfied it (the hook's
`dataSource` is `cache` / `api` / `github`) and with what data, or `failure`
when the fallback also failed (the hook sets `error` and keeps no data). -/
inductive LoadOutcome where
  | cacheHit (data : FeatureCollection)
  | fromApi (data : FeatureCollection)
  | fromGithub (data : FeatureCollection)
  | failure
deriving DecidableEq

/-- `loadGeoJSON` (hook lines 21-85): cache first; on a miss fetch the API,
falling back to GitHub on any non-success; a fetched collection is simplified,
pruned and written to the cache.  Returns the outcome and the storage state
after the cycle. -/
def loadGeoJSON (primary : FeatureCollection → FeatureCollection)
    (env : LoadEnv) (store : Option StoredBlob) : LoadOutcome × Option StoredBlob :=
  match getCachedGeoJSON store env.now with
  | (some cachedData, store') => (.cacheHit cachedData, store')
  | (none, store') =>
      match env.primaryResp with
      | some rawGeoJSON =>
          let optimizedGeoJSON := optimizeGeoJSON primary rawGeoJSON
          (.fromApi optimizedGeoJSON, some (.ok optimizedGeoJSON env.now))
      | none =>
          match env.fallbackResp with
          | some rawGeoJSON =>
              let optimizedGeoJSON := optimizeGeoJSON primary rawGeoJSON
              (.fromGithub optimizedGeoJSON, some (.ok optimizedGeoJSON env.now))
          | none => (.failure, store')

/-- `refreshGeoJSON` (hook lines 140-143): remove the cache entry, then run
the full load cycle on the now-empty storage. -/
def refreshGeoJSON (primary : FeatureCollection → FeatureCollection)
    (env : LoadEnv) (_store : Option StoredBlob) : LoadOutcome × Option StoredBlob :=
  loadGeoJSON primary env none

/-- The `filteredGeoJSON` memo (hook lines 121-138): with no bounds, serve the
first 50 features; with bounds, serve the bounds-filtered collection capped at
100 features. -/
def filteredGeoJSON (geoJsonData : Option FeatureCollection) (mapBounds : Option Bounds) :
    Option FeatureCollection :=
  match geoJsonData with
  | none => none
  | some g =>
      match mapBounds with
      | none => some { g with features := g.features.take 50 }
      | some b =>
          match filterGeoJSONByBounds (some g) (some b) with
          | some filtered => some { filtered with features := filtered.features.take 100 }
          | none => none

/-- `totalFeatures` as returned by the hook (line 151): the length of the
*unfiltered* loaded collection. -/
def totalFeatures (geoJsonData : Option FeatureCollection) : ℕ :=
  match geoJsonData with
  | none => 0
  | some g => g.features.length

/-! ### The ward import route (`router.post('/import')`, server lines 75-170) -/

/-- Identifier resolution: `properties.id || properties.WARD_ID || properties.ward_id`. -/
def wardIdOf (props : Properties) : Option String :=
  orJS (orJS props.id props.WARD_ID) props.ward_id

/-- A feature has a resolvable identifier when the resolved value is truthy
(the route skips the feature on `if (!wardId)`). -/
def resolvableId (feature : Feature) : Bool :=
  truthy (wardIdOf feature.properties)

/-- Name resolution: `properties.name || properties.WARD_NAME` with the
template default.  Only evaluated for features whose identifier is truthy. -/
def wardNameOf (props : Properties) (wardId : String) : String :=
  match orJS props.name props.WARD_NAME with
  | some s => if s.isEmpty then "Ward " ++ wardId else s
  | none => "Ward " ++ wardId

/-- The import route's coarse stride simplification of a `Polygon` geometry
(server lines 108-124): `step = Math.max(1, Math.floor(coords.length *
simplify_tolerance))`, keep every `step`-th point of the primary ring,
re-appending the original last point if the stride dropped it (the same
object-identity re-append guard as in `hardCapRing`). -/
def importSimplifyGeometry (geometry : Geometry) (tol : ℚ) : Geometry :=
  match geometry with
  | .polygon (coords :: _) =>
      if tol > 0 then
        let step := max 1 (Int.toNat ⌊(coords.length : ℚ) * tol⌋)
        .polygon [strideDecimate coords step]
      else geometry
  | g => g

/-- A row of the `wards` table as built by the import loop. -/
structure WardRecord where
  ward_id : String
  name : String
  municipality_id : Option String
  geojson : Geometry
  properties : Properties
deriving DecidableEq

/-- The import loop (server lines 95-133): features whose resolved identifier
is falsy are skipped; the rest become records with simplified geometry. -/
def wardsToInsert (features : List Feature) (municipalityId : Option String) (tol : ℚ) :
    List WardRecord :=
  features.filterMap (fun feature =>
    match wardIdOf feature.properties with
    | some wardId =>
        if wardId.isEmpty then none
        else some
          { ward_id := wardId
            name := wardNameOf feature.properties wardId
            municipality_id := municipalityId
            geojson := importSimplifyGeometry feature.geometry tol
            properties := feature.properties }
    | none => none)

/-- Split into upsert batches of 100 (server line 140 and the `for` stride). -/
def chunk100 : List WardRecord → List (List WardRecord)
  | [] => []
  | l@(_ :: _) => l.take 100 :: chunk100 (l.drop 100)
termination_by l => l.length
decreasing_by simp_all [List.length_drop]; omega

/-- The outcome of the import route: a 4xx error response or the
`{imported_count, total_features}` success payload. -/
inductive ImportResult where
  | badRequest (msg : String)
  | ok (importedCount totalFeatures : ℕ)
deriving DecidableEq

/-- The batch upsert loop (server lines 139-159): each batch is handed to the
store (`upsert` success modelled by the `ups` oracle); a failing batch aborts
the import with an error, a succeeding one adds `batch.length` to
`insertedCount`. -/
def runBatches (ups : List WardRecord → Bool) :
    List (List WardRecord) → ℕ → ℕ → ImportResult
  | [], insertedCount, total => .ok insertedCount total
  | batch :: rest, insertedCount, total =>
      if ups batch then runBatches ups rest (insertedCount + batch.length) total
      else .badRequest ("Failed to insert ward batch")

/-- The import route.  `fetched` is the parsed GeoJSON of the supplied URL
(`none` for a failed fetch — and the invalid-format 400 is folded into the
same arm, as no claim distinguishes them). -/
def importWards (fetched : Option FeatureCollection) (municipalityId : Option String)
    (tol : ℚ) (ups : List WardRecord → Bool) : ImportResult :=
  match fetched with
  | none => .badRequest ("Failed to fetch GeoJSON data")
  | some geojsonData =>
      let toInsert := wardsToInsert geojsonData.features municipalityId tol
      if toInsert.length = 0 then .badRequest ("No valid wards found in GeoJSON")
      else runBatches ups (chunk100 toInsert) 0 geojsonData.features.length

/-! ### Geometric notions for the `isPointInPolygon` correctness claim

The spec speaks of a "simple convex closed ring" and of points "strictly
inside" / "strictly outside" it without defining those terms, so they are
modelled here (from the spec) in the standard discrete form: a ring is
presented by its vertex cycle `W : ZMod m → ℚ × ℚ` (the list handed to the
code is `ringOf m W`, which repeats `W 0` at the end, so it is closed and has
`m + 1 ≥ 4` points), convexity is the strict convex-position condition that
every vertex lies strictly to one side of every directed edge line (the same
side for all, which also rules out repeated or collinear vertices, i.e.
non-simple rings), and strict interior/exterior membership is the
corresponding strict half-plane condition on the query point. -/

/-- Twice the signed area of the triangle `A B Q`: the z-component of
`(B - A) × (Q - A)`.  Positive exactly when `Q` lies strictly to the left of
the directed line `A → B`. -/
def crossZ (A B : ℚ × ℚ) (qx qy : ℚ) : ℚ :=
  (B.1 - A.1) * (qy - A.2) - (B.2 - A.2) * (qx - A.1)

/-- The closed vertex ring handed to `isPointInPolygon`: the `m` cycle
vertices followed by a repeat of the first one. -/
def ringOf (m : ℕ) (W : ZMod m → ℚ × ℚ) : List (ℚ × ℚ) :=
  (List.range m).map (fun i : ℕ => W (i : ZMod m)) ++ [W 0]

/-- Strict convex position, counterclockwise: every vertex not on edge `k`
lies strictly to the left of the directed edge `W k → W (k+1)`. -/
def ConvexCCW (m : ℕ) (W : ZMod m → ℚ × ℚ) : Prop :=
  ∀ k j : ZMod m, j ≠ k → j ≠ k + 1 → 0 < crossZ (W k) (W (k + 1)) (W j).1 (W j).2

/-- Strict convex position, clockwise. -/
def ConvexCW (m : ℕ) (W : ZMod m → ℚ × ℚ) : Prop :=
  ∀ k j : ZMod m, j ≠ k → j ≠ k + 1 → crossZ (W k) (W (k + 1)) (W j).1 (W j).2 < 0

/-- `p` lies strictly to the left of every directed edge — the strict interior
of a counterclockwise convex ring. -/
def StrictLeftAll (m : ℕ) (W : ZMod m → ℚ × ℚ) (p : GeoPoint) : Prop :=
  ∀ k : ZMod m, 0 < crossZ (W k) (W (k + 1)) p.longitude p.latitude

/-- `p` lies strictly to the right of every directed edge — the strict
interior of a clockwise convex ring. -/
def StrictRightAll (m : ℕ) (W : ZMod m → ℚ × ℚ) (p : GeoPoint) : Prop :=
  ∀ k : ZMod m, crossZ (W k) (W (k + 1)) p.longitude p.latitude < 0

/-- `p` lies strictly to the right of some directed edge — strictly outside a
counterclockwise convex ring. -/
def SomeStrictRight (m : ℕ) (W : ZMod m → ℚ × ℚ) (p : GeoPoint) : Prop :=
  ∃ k : ZMod m, crossZ (W k) (W (k + 1)) p.longitude p.latitude < 0

/-- `p` lies strictly to the left of some directed edge — strictly outside a
clockwise convex ring. -/
def SomeStrictLeft (m : ℕ) (W : ZMod m → ℚ × ℚ) (p : GeoPoint) : Prop :=
  ∃ k : ZMod m, 0 < crossZ (W k) (W (k + 1)) p.longitude p.latitude

/-- The toggle test of the ray-casting loop on the single edge between the
previous vertex `A` and the current vertex `B` (the code's `(j, i)` pair). -/
def edgeToggle (lat lng : ℚ) (A B : ℚ × ℚ) : Bool :=
  decide ((B.2 > lat) ≠ (A.2 > lat)) &&
    decide (lng < (A.1 - B.1) * (lat - B.2) / (A.2 - B.2) + B.1)

/-- The edge `k → k+1` of the vertex cycle rises through latitude `lat`
(half-open straddle rule, matching `(yi > lat) !== (yj > lat)`). -/
def ascEdge (m : ℕ) (W : ZMod m → ℚ × ℚ) (lat : ℚ) (k : ZMod m) : Prop :=
  (W k).2 ≤ lat ∧ lat < (W (k + 1)).2

/-- The edge `k → k+1` of the vertex cycle falls through latitude `lat`. -/
def descEdge (m : ℕ) (W : ZMod m → ℚ × ℚ) (lat : ℚ) (k : ZMod m) : Prop :=
  (W (k + 1)).2 ≤ lat ∧ lat < (W k).2

/-- The longitude at which the (non-horizontal) edge `A → B` crosses latitude
`lat`. -/
def xCross (A B : ℚ × ℚ) (lat : ℚ) : ℚ :=
  A.1 + (B.1 - A.1) * (lat - A.2) / (B.2 - A.2)

/-- A concrete example ring for instantiations: the unit square, listed
counterclockwise. -/
def sqW : ZMod 4 → ℚ × ℚ := fun k =>
  if k = 0 then (0, 0) else if k = 1 then (1, 0) else if k = 2 then (1, 1) else (0, 1)

instance (m : ℕ) [NeZero m] (W : ZMod m → ℚ × ℚ) : Decidable (ConvexCCW m W) :=
  inferInstanceAs (Decidable (∀ k j : ZMod m, j ≠ k → j ≠ k + 1 →
    0 < crossZ (W k) (W (k + 1)) (W j).1 (W j).2))

instance (m : ℕ) [NeZero m] (W : ZMod m → ℚ × ℚ) : Decidable (ConvexCW m W) :=
  inferInstanceAs (Decidable (∀ k j : ZMod m, j ≠ k → j ≠ k + 1 →
    crossZ (W k) (W (k + 1)) (W j).1 (W j).2 < 0))

instance (m : ℕ) [NeZero m] (W : ZMod m → ℚ × ℚ) (p : GeoPoint) :
    Decidable (StrictLeftAll m W p) :=
  inferInstanceAs (Decidable (∀ k : ZMod m,
    0 < crossZ (W k) (W (k + 1)) p.longitude p.latitude))

instance (m : ℕ) [NeZero m] (W : ZMod m → ℚ × ℚ) (p : GeoPoint) :
    Decidable (StrictRightAll m W p) :=
  inferInstanceAs (Decidable (∀ k : ZMod m,
    crossZ (W k) (W (k + 1)) p.longitude p.latitude < 0))

instance (m : ℕ) [NeZero m] (W : ZMod m → ℚ × ℚ) (p : GeoPoint) :
    Decidable (SomeStrictRight m W p) :=
  inferInstanceAs (Decidable (∃ k : ZMod m,
    crossZ (W k) (W (k + 1)) p.longitude p.latitude < 0))

instance (m : ℕ) [NeZero m] (W : ZMod m → ℚ × ℚ) (p : GeoPoint) :
    Decidable (SomeStrictLeft m W p) :=
  inferInstanceAs (Decidable (∃ k : ZMod m,
    0 < crossZ (W k) (W (k + 1)) p.longitude p.latitude))

instance (m : ℕ) (W : ZMod m → ℚ × ℚ) (lat : ℚ) : DecidablePred (ascEdge m W lat) :=
  fun k => inferInstanceAs (Decidable ((W k).2 ≤ lat ∧ lat < (W (k + 1)).2))

instance (m : ℕ) (W : ZMod m → ℚ × ℚ) (lat : ℚ) : DecidablePred (descEdge m W lat) :=
  fun k => inferInstanceAs (Decidable ((W (k + 1)).2 ≤ lat ∧ lat < (W k).2))

/-! ## Helper lemmas: fold parity and counting -/

lemma foldl_toggle (p : ℕ → Bool) (l : List ℕ) (b : Bool) :
    l.foldl (fun inside i => if p i then !inside else inside) b
      = Bool.xor b (decide (Odd (l.countP p))) := by
  induction l generalizing b with
  | nil => simp
  | cons a l ih =>
    rw [List.foldl_cons, List.countP_cons, ih]
    by_cases h : p a
    · have hodd : Odd (l.countP p + 1) ↔ ¬ Odd (l.countP p) := Nat.odd_add_one
      simp only [h, if_true, if_pos]
      cases b <;> rcases Bool.eq_false_or_eq_true (decide (Odd (l.countP p))) with hb | hb <;>
        simp_all [hodd]
    · simp [h]

lemma countP_range_eq_card (n : ℕ) (p : ℕ → Bool) :
    (List.range n).countP p = ((Finset.range n).filter (fun k => p k = true)).card := by
  induction n with
  | zero => simp
  | succ n ih =>
    rw [List.range_succ, List.countP_append, Finset.range_succ, Finset.filter_insert]
    by_cases h : p n = true
    · rw [if_pos h, Finset.card_insert_of_not_mem (by simp)]
      simp [h, ih]
    · rw [if_neg h]
      simp [h, ih]

lemma card_filter_cast_eq (m : ℕ) [NeZero m] (p : ZMod m → Bool) :
    ((Finset.range m).filter (fun k : ℕ => p (k : ZMod m) = true)).card
      = (Finset.univ.filter (fun z : ZMod m => p z = true)).card := by
  apply Finset.card_nbij' (fun k : ℕ => (k : ZMod m)) (fun z : ZMod m => z.val)
  · intro a ha
    simp only [Finset.mem_filter, Finset.mem_range, Finset.mem_univ, true_and] at ha ⊢
    exact ha.2
  · intro z hz
    simp only [Finset.mem_filter, Finset.mem_univ, true_and, Finset.mem_range] at hz ⊢
    exact ⟨ZMod.val_lt z, by rw [ZMod.natCast_zmod_val]; exact hz⟩
  · intro a ha
    simp only [Finset.mem_filter, Finset.mem_range] at ha
    exact ZMod.val_cast_of_lt ha.1
  · intro z _
    exact ZMod.natCast_zmod_val z

lemma ringOf_length (m : ℕ) (W : ZMod m → ℚ × ℚ) : (ringOf m W).length = m + 1 := by
  rw [ringOf, List.length_append, List.length_map, List.length_range, List.length_singleton]

lemma ringOf_getD (m : ℕ) (W : ZMod m → ℚ × ℚ) (i : ℕ) (h : i ≤ m) :
    (ringOf m W).getD i (0, 0) = W (i : ZMod m) := by
  rcases lt_or_eq_of_le h with hlt | heq
  · have hl : i < ((List.range m).map (fun j : ℕ => W (j : ZMod m))).length := by
      rw [List.length_map, List.length_range]; exact hlt
    rw [ringOf, List.getD_append _ _ _ _ hl, List.getD_eq_getElem _ _ hl,
      List.getElem_map, List.getElem_range]
  · subst heq
    rw [ringOf, List.getD_append_right _ _ _ _ (by rw [List.length_map, List.length_range])]
    rw [List.length_map, List.length_range, Nat.sub_self]
    simp [ZMod.natCast_self]

lemma isPointInPolygon_eq_parity (p : GeoPoint) (poly : List (ℚ × ℚ)) :
    isPointInPolygon p poly
      = decide (Odd ((List.range poly.length).countP
          (pipCond p.latitude p.longitude poly))) := by
  rw [isPointInPolygon, foldl_toggle, Bool.false_xor]

lemma pipCond_def (lat lng : ℚ) (poly : List (ℚ × ℚ)) (i : ℕ) :
    pipCond lat lng poly i
      = (decide (((poly.getD i (0, 0)).2 > lat)
            ≠ ((poly.getD (if i = 0 then poly.length - 1 else i - 1) (0, 0)).2 > lat)) &&
          decide (lng <
            ((poly.getD (if i = 0 then poly.length - 1 else i - 1) (0, 0)).1
                - (poly.getD i (0, 0)).1)
              * (lat - (poly.getD i (0, 0)).2)
              / ((poly.getD (if i = 0 then poly.length - 1 else i - 1) (0, 0)).2
                - (poly.getD i (0, 0)).2)
              + (poly.getD i (0, 0)).1)) := rfl

lemma pipCond_ringOf_zero (lat lng : ℚ) (m : ℕ) (W : ZMod m → ℚ × ℚ) :
    pipCond lat lng (ringOf m W) 0 = false := by
  have h0 : (ringOf m W).getD 0 (0, 0) = W 0 := by
    simpa using ringOf_getD m W 0 (Nat.zero_le m)
  have hm : (ringOf m W).getD ((ringOf m W).length - 1) (0, 0) = W 0 := by
    rw [ringOf_length, Nat.add_sub_cancel]
    simpa [ZMod.natCast_self] using ringOf_getD m W m le_rfl
  rw [pipCond_def, if_pos rfl, h0, hm]
  simp

lemma pipCond_ringOf_succ (lat lng : ℚ) (m : ℕ) (W : ZMod m → ℚ × ℚ) (k : ℕ)
    (hk : k + 1 ≤ m) :
    pipCond lat lng (ringOf m W) (k + 1)
      = edgeToggle lat lng (W (k : ZMod m)) (W ((k : ZMod m) + 1)) := by
  have hcur : (ringOf m W).getD (k + 1) (0, 0) = W ((k : ZMod m) + 1) := by
    rw [ringOf_getD m W (k + 1) hk]
    push_cast
    rfl
  have hprev : (ringOf m W).getD k (0, 0) = W (k : ZMod m) :=
    ringOf_getD m W k (le_of_lt hk)
  rw [pipCond_def, if_neg (Nat.succ_ne_zero k), Nat.add_sub_cancel, hcur, hprev]
  rfl

lemma isPointInPolygon_ringOf (m : ℕ) [NeZero m] (W : ZMod m → ℚ × ℚ) (p : GeoPoint) :
    isPointInPolygon p (ringOf m W)
      = decide (Odd ((Finset.univ.filter (fun z : ZMod m =>
          edgeToggle p.latitude p.longitude (W z) (W (z + 1)) = true)).card)) := by
  rw [isPointInPolygon_eq_parity, ringOf_length]
  have hcount : (List.range (m + 1)).countP (pipCond p.latitude p.longitude (ringOf m W))
      = (Finset.univ.filter (fun z : ZMod m =>
          edgeToggle p.latitude p.longitude (W z) (W (z + 1)) = true)).card := by
    rw [List.range_succ_eq_map, List.countP_cons, pipCond_ringOf_zero]
    simp only [if_neg Bool.false_ne_true, Nat.add_zero, List.countP_map]
    have hcong : (List.range m).countP
        ((pipCond p.latitude p.longitude (ringOf m W)) ∘ Nat.succ)
        = (List.range m).countP
            (fun k : ℕ => edgeToggle p.latitude p.longitude (W (k : ZMod m))
              (W ((k : ZMod m) + 1))) := by
      apply List.countP_congr
      intro k hk
      have hkm : k + 1 ≤ m := Nat.succ_le_of_lt (List.mem_range.mp hk)
      show pipCond p.latitude p.longitude (ringOf m W) (k + 1) = _ ↔ _
      rw [pipCond_ringOf_succ p.latitude p.longitude m W k hkm]
    rw [hcong, countP_range_eq_card]
    exact card_filter_cast_eq m
      (fun z => edgeToggle p.latitude p.longitude (W z) (W (z + 1)))
  rw [hcount]

/-! ## Helper lemmas: the toggle condition as a sign condition -/

lemma crossZ_swap (A B : ℚ × ℚ) (qx qy : ℚ) : crossZ B A qx qy = -crossZ A B qx qy := by
  unfold crossZ; ring

lemma crossZ_base (A B : ℚ × ℚ) (qx qy : ℚ) :
    crossZ A B qx qy = (B.1 - A.1) * (qy - B.2) - (B.2 - A.2) * (qx - B.1) := by
  unfold crossZ; ring

lemma crossZ_affine (A B : ℚ × ℚ) (x1 y1 x2 y2 t : ℚ) :
    crossZ A B ((1 - t) * x1 + t * x2) ((1 - t) * y1 + t * y2)
      = (1 - t) * crossZ A B x1 y1 + t * crossZ A B x2 y2 := by
  unfold crossZ; ring

lemma crossZ_vertex_fst (A B : ℚ × ℚ) : crossZ A B A.1 A.2 = 0 := by
  unfold crossZ; ring

lemma crossZ_vertex_snd (A B : ℚ × ℚ) : crossZ A B B.1 B.2 = 0 := by
  unfold crossZ; ring

lemma crossZ_at_lat (A B : ℚ × ℚ) (lat x : ℚ) (h : A.2 ≠ B.2) :
    crossZ A B x lat = (xCross A B lat - x) * (B.2 - A.2) := by
  unfold crossZ xCross
  have hne : B.2 - A.2 ≠ 0 := sub_ne_zero.mpr (Ne.symm h)
  field_simp
  ring

lemma toggle_ineq_asc (lat lng : ℚ) (A B : ℚ × ℚ) (h : A.2 < B.2) :
    (lng < (A.1 - B.1) * (lat - B.2) / (A.2 - B.2) + B.1) ↔ 0 < crossZ A B lng lat := by
  have hD : A.2 - B.2 < 0 := by linarith
  have hcz : crossZ A B lng lat
      = (lng - B.1) * (A.2 - B.2) - (A.1 - B.1) * (lat - B.2) := by
    unfold crossZ; ring
  rw [← sub_lt_iff_lt_add, lt_div_iff_of_neg hD]
  constructor <;> intro h' <;> nlinarith [hcz]

lemma toggle_ineq_desc (lat lng : ℚ) (A B : ℚ × ℚ) (h : B.2 < A.2) :
    (lng < (A.1 - B.1) * (lat - B.2) / (A.2 - B.2) + B.1) ↔ crossZ A B lng lat < 0 := by
  have hD : 0 < A.2 - B.2 := by linarith
  have hcz : crossZ A B lng lat
      = (lng - B.1) * (A.2 - B.2) - (A.1 - B.1) * (lat - B.2) := by
    unfold crossZ; ring
  rw [← sub_lt_iff_lt_add, lt_div_iff₀ hD]
  constructor <;> intro h' <;> nlinarith [hcz]

lemma edgeToggle_iff (lat lng : ℚ) (A B : ℚ × ℚ) :
    edgeToggle lat lng A B = true ↔
      ((A.2 ≤ lat ∧ lat < B.2) ∧ 0 < crossZ A B lng lat) ∨
      ((B.2 ≤ lat ∧ lat < A.2) ∧ crossZ A B lng lat < 0) := by
  unfold edgeToggle
  rw [Bool.and_eq_true, decide_eq_true_eq, decide_eq_true_eq]
  constructor
  · rintro ⟨hne, hlt⟩
    by_cases hB : lat < B.2
    · have hA : ¬ lat < A.2 := by
        intro hA; exact hne (by simp [hA, hB])
      push_neg at hA
      have : A.2 < B.2 := lt_of_le_of_lt hA hB
      exact Or.inl ⟨⟨hA, hB⟩, (toggle_ineq_asc lat lng A B this).mp hlt⟩
    · have hA : lat < A.2 := by
        by_contra hA
        exact hne (by simp [hA, hB])
      push_neg at hB
      have : B.2 < A.2 := lt_of_le_of_lt hB hA
      exact Or.inr ⟨⟨hB, hA⟩, (toggle_ineq_desc lat lng A B this).mp hlt⟩
  · rintro (⟨⟨hA, hB⟩, hc⟩ | ⟨⟨hB, hA⟩, hc⟩)
    · refine ⟨?_, (toggle_ineq_asc lat lng A B (lt_of_le_of_lt hA hB)).mpr hc⟩
      simp [hB, not_lt.mpr hA]
    · refine ⟨?_, (toggle_ineq_desc lat lng A B (lt_of_le_of_lt hB hA)).mpr hc⟩
      simp [hA, not_lt.mpr hB]

/-! ## Helper lemmas: strict convex position -/

lemma zmod_one_ne_zero (m : ℕ) (hm : 3 ≤ m) : (1 : ZMod m) ≠ 0 := by
  haveI : NeZero m := ⟨by omega⟩
  intro h
  rw [← Nat.cast_one, ZMod.natCast_zmod_eq_zero_iff_dvd] at h
  have := Nat.le_of_dvd Nat.one_pos h
  omega

lemma zmod_two_ne_zero (m : ℕ) (hm : 3 ≤ m) : (2 : ZMod m) ≠ 0 := by
  haveI : NeZero m := ⟨by omega⟩
  intro h
  rw [← Nat.cast_two, ZMod.natCast_zmod_eq_zero_iff_dvd] at h
  have := Nat.le_of_dvd (by omega) h
  omega

lemma vertex_nonneg (m : ℕ) (W : ZMod m → ℚ × ℚ) (hSC : ConvexCCW m W) (k j : ZMod m) :
    0 ≤ crossZ (W k) (W (k + 1)) (W j).1 (W j).2 := by
  by_cases h1 : j = k
  · subst h1; rw [crossZ_vertex_fst]
  · by_cases h2 : j = k + 1
    · subst h2; rw [crossZ_vertex_snd]
    · exact (hSC k j h1 h2).le

lemma ascEdge_not_adjacent (m : ℕ) (W : ZMod m → ℚ × ℚ) (lat : ℚ) (i : ZMod m)
    (h1 : ascEdge m W lat i) (h2 : ascEdge m W lat (i + 1)) : False :=
  absurd h2.1 (not_le.mpr h1.2)

lemma descEdge_not_adjacent (m : ℕ) (W : ZMod m → ℚ × ℚ) (lat : ℚ) (i : ZMod m)
    (h1 : descEdge m W lat i) (h2 : descEdge m W lat (i + 1)) : False :=
  absurd h1.1 (not_le.mpr h2.2)

lemma crossZ_xCross_combo (X Y A B : ℚ × ℚ) (lat : ℚ) (h : A.2 ≠ B.2) :
    crossZ X Y (xCross A B lat) lat
      = (1 - (lat - A.2) / (B.2 - A.2)) * crossZ X Y A.1 A.2
        + ((lat - A.2) / (B.2 - A.2)) * crossZ X Y B.1 B.2 := by
  have hne : B.2 - A.2 ≠ 0 := sub_ne_zero.mpr (Ne.symm h)
  unfold crossZ xCross
  field_simp
  ring

lemma crossZ_xCross_nonneg (X Y A B : ℚ × ℚ) (lat : ℚ) (h : A.2 ≠ B.2)
    (hA : 0 ≤ crossZ X Y A.1 A.2) (hB : 0 ≤ crossZ X Y B.1 B.2)
    (ht0 : 0 ≤ (lat - A.2) / (B.2 - A.2)) (ht1 : (lat - A.2) / (B.2 - A.2) ≤ 1) :
    0 ≤ crossZ X Y (xCross A B lat) lat := by
  rw [crossZ_xCross_combo X Y A B lat h]
  have h1 : 0 ≤ (1 - (lat - A.2) / (B.2 - A.2)) := by linarith
  exact add_nonneg (mul_nonneg h1 hA) (mul_nonneg ht0 hB)

lemma crossZ_xCross_pos (X Y A B : ℚ × ℚ) (lat : ℚ) (h : A.2 ≠ B.2)
    (hA : 0 < crossZ X Y A.1 A.2) (hB : 0 < crossZ X Y B.1 B.2)
    (ht0 : 0 ≤ (lat - A.2) / (B.2 - A.2)) (ht1 : (lat - A.2) / (B.2 - A.2) ≤ 1) :
    0 < crossZ X Y (xCross A B lat) lat := by
  rw [crossZ_xCross_combo X Y A B lat h]
  rcases lt_or_le 0 ((lat - A.2) / (B.2 - A.2)) with ht | ht
  · have := mul_pos ht hB
    have h1 : 0 ≤ (1 - (lat - A.2) / (B.2 - A.2)) := by linarith
    nlinarith [mul_nonneg h1 hA.le]
  · have ht' : (lat - A.2) / (B.2 - A.2) = 0 := le_antisymm ht ht0
    rw [ht']
    simpa using hA

lemma asc_t_range (A B : ℚ × ℚ) (lat : ℚ) (h1 : A.2 ≤ lat) (h2 : lat < B.2) :
    0 ≤ (lat - A.2) / (B.2 - A.2) ∧ (lat - A.2) / (B.2 - A.2) ≤ 1 := by
  have hd : 0 < B.2 - A.2 := by linarith
  constructor
  · exact div_nonneg (by linarith) hd.le
  · rw [div_le_one hd]; linarith

lemma desc_t_range (A B : ℚ × ℚ) (lat : ℚ) (h1 : B.2 ≤ lat) (h2 : lat < A.2) :
    0 ≤ (lat - A.2) / (B.2 - A.2) ∧ (lat - A.2) / (B.2 - A.2) ≤ 1 := by
  have hd : B.2 - A.2 < 0 := by linarith
  constructor
  · exact div_nonneg_of_nonpos (by linarith) hd.le
  · rw [div_le_one_of_neg hd]; linarith

lemma asc_xCross_lt (m : ℕ) (W : ZMod m → ℚ × ℚ) (hSC : ConvexCCW m W) (lat : ℚ)
    (i j : ZMod m) (hi : ascEdge m W lat i) (hj : ascEdge m W lat j)
    (hne1 : j ≠ i) (hne2 : j ≠ i + 1) (hne3 : j + 1 ≠ i) (hne4 : j + 1 ≠ i + 1) :
    xCross (W j) (W (j + 1)) lat < xCross (W i) (W (i + 1)) lat := by
  have hdi : (W i).2 < (W (i + 1)).2 := lt_of_le_of_lt hi.1 hi.2
  have hdine : (W i).2 ≠ (W (i + 1)).2 := ne_of_lt hdi
  have hdjne : (W j).2 ≠ (W (j + 1)).2 := ne_of_lt (lt_of_le_of_lt hj.1 hj.2)
  have hA : 0 < crossZ (W i) (W (i + 1)) (W j).1 (W j).2 := hSC i j hne1 hne2
  have hB : 0 < crossZ (W i) (W (i + 1)) (W (j + 1)).1 (W (j + 1)).2 := hSC i (j + 1) hne3 hne4
  obtain ⟨ht0, ht1⟩ := asc_t_range (W j) (W (j + 1)) lat hj.1 hj.2
  have hQj : 0 < crossZ (W i) (W (i + 1)) (xCross (W j) (W (j + 1)) lat) lat :=
    crossZ_xCross_pos (W i) (W (i + 1)) (W j) (W (j + 1)) lat hdjne hA hB ht0 ht1
  have hrepr := crossZ_at_lat (W i) (W (i + 1)) lat (xCross (W j) (W (j + 1)) lat) hdine
  nlinarith [hrepr, hQj, hdi]

lemma desc_xCross_lt (m : ℕ) (W : ZMod m → ℚ × ℚ) (hSC : ConvexCCW m W) (lat : ℚ)
    (i j : ZMod m) (hi : descEdge m W lat i) (hj : descEdge m W lat j)
    (hne1 : j ≠ i) (hne2 : j ≠ i + 1) (hne3 : j + 1 ≠ i) (hne4 : j + 1 ≠ i + 1) :
    xCross (W i) (W (i + 1)) lat < xCross (W j) (W (j + 1)) lat := by
  have hdi : (W (i + 1)).2 < (W i).2 := lt_of_le_of_lt hi.1 hi.2
  have hdine : (W i).2 ≠ (W (i + 1)).2 := ne_of_gt hdi
  have hdjne : (W j).2 ≠ (W (j + 1)).2 := ne_of_gt (lt_of_le_of_lt hj.1 hj.2)
  have hA : 0 < crossZ (W i) (W (i + 1)) (W j).1 (W j).2 := hSC i j hne1 hne2
  have hB : 0 < crossZ (W i) (W (i + 1)) (W (j + 1)).1 (W (j + 1)).2 := hSC i (j + 1) hne3 hne4
  obtain ⟨ht0, ht1⟩ := desc_t_range (W j) (W (j + 1)) lat hj.1 hj.2
  have hQj : 0 < crossZ (W i) (W (i + 1)) (xCross (W j) (W (j + 1)) lat) lat :=
    crossZ_xCross_pos (W i) (W (i + 1)) (W j) (W (j + 1)) lat hdjne hA hB ht0 ht1
  have hrepr := crossZ_at_lat (W i) (W (i + 1)) lat (xCross (W j) (W (j + 1)) lat) hdine
  nlinarith [hrepr, hQj, hdi]

lemma ascEdge_unique (m : ℕ) (W : ZMod m → ℚ × ℚ) (hSC : ConvexCCW m W) (lat : ℚ)
    (i j : ZMod m) (hi : ascEdge m W lat i) (hj : ascEdge m W lat j) : i = j := by
  by_contra hne
  by_cases hji : j = i + 1
  · subst hji; exact ascEdge_not_adjacent m W lat i hi hj
  by_cases hij : i = j + 1
  · subst hij; exact ascEdge_not_adjacent m W lat j hj hi
  have hne' : j ≠ i := fun h => hne h.symm
  have hne3 : j + 1 ≠ i := fun h => hij h.symm
  have hne4 : j + 1 ≠ i + 1 := fun h => hne (add_right_cancel h).symm
  have h1 := asc_xCross_lt m W hSC lat i j hi hj hne' hji hne3 hne4
  have hne3' : i + 1 ≠ j := fun h => hji h.symm
  have hne4' : i + 1 ≠ j + 1 := fun h => hne (add_right_cancel h)
  have h2 := asc_xCross_lt m W hSC lat j i hj hi hne hij hne3' hne4'
  linarith

lemma descEdge_unique (m : ℕ) (W : ZMod m → ℚ × ℚ) (hSC : ConvexCCW m W) (lat : ℚ)
    (i j : ZMod m) (hi : descEdge m W lat i) (hj : descEdge m W lat j) : i = j := by
  by_contra hne
  by_cases hji : j = i + 1
  · subst hji; exact descEdge_not_adjacent m W lat i hi hj
  by_cases hij : i = j + 1
  · subst hij; exact descEdge_not_adjacent m W lat j hj hi
  have hne' : j ≠ i := fun h => hne h.symm
  have hne3 : j + 1 ≠ i := fun h => hij h.symm
  have hne4 : j + 1 ≠ i + 1 := fun h => hne (add_right_cancel h).symm
  have h1 := desc_xCross_lt m W hSC lat i j hi hj hne' hji hne3 hne4
  have hne3' : i + 1 ≠ j := fun h => hji h.symm
  have hne4' : i + 1 ≠ j + 1 := fun h => hne (add_right_cancel h)
  have h2 := desc_xCross_lt m W hSC lat j i hj hi hne hij hne3' hne4'
  linarith

lemma card_asc_eq_card_desc (m : ℕ) [NeZero m] (W : ZMod m → ℚ × ℚ) (lat : ℚ) :
    (Finset.univ.filter (fun k : ZMod m => ascEdge m W lat k)).card
      = (Finset.univ.filter (fun k : ZMod m => descEdge m W lat k)).card := by
  have point : ∀ k : ZMod m, ((if lat < (W (k + 1)).2 then (1 : ℤ) else 0)
      - (if lat < (W k).2 then (1 : ℤ) else 0))
      = ((if ascEdge m W lat k then (1 : ℤ) else 0)
        - (if descEdge m W lat k then (1 : ℤ) else 0)) := by
    intro k
    unfold ascEdge descEdge
    by_cases h1 : lat < (W k).2 <;> by_cases h2 : lat < (W (k + 1)).2
    · rw [if_pos h2, if_pos h1, if_neg (fun h => absurd h.1 (not_le.mpr h1)),
        if_neg (fun h => absurd h.1 (not_le.mpr h2))]
      norm_num
    · rw [if_neg h2, if_pos h1, if_neg (fun h => absurd h.1 (not_le.mpr h1)),
        if_pos ⟨not_lt.mp h2, h1⟩]
    · rw [if_pos h2, if_neg h1, if_pos ⟨not_lt.mp h1, h2⟩,
        if_neg (fun h => h1 h.2)]
    · rw [if_neg h2, if_neg h1, if_neg (fun h => h2 h.2),
        if_neg (fun h => h1 h.2)]
  have key : ∑ k : ZMod m, ((if ascEdge m W lat k then (1 : ℤ) else 0)
      - (if descEdge m W lat k then (1 : ℤ) else 0)) = 0 := by
    rw [← Finset.sum_congr rfl (fun k _ => point k)]
    rw [Finset.sum_sub_distrib]
    have hshift : ∑ k : ZMod m, (if lat < (W (k + 1)).2 then (1 : ℤ) else 0)
        = ∑ k : ZMod m, (if lat < (W k).2 then (1 : ℤ) else 0) :=
      Fintype.sum_equiv (Equiv.addRight 1)
        (fun k => if lat < (W (k + 1)).2 then (1 : ℤ) else 0)
        (fun k => if lat < (W k).2 then (1 : ℤ) else 0) (fun k => rfl)
    rw [hshift, sub_self]
  rw [Finset.sum_sub_distrib, Finset.sum_boole, Finset.sum_boole, sub_eq_zero] at key
  exact_mod_cast key

lemma exists_asc_of_nonconst (m : ℕ) [NeZero m] (W : ZMod m → ℚ × ℚ) (lat : ℚ)
    (i0 i1 : ZMod m) (h0 : (W i0).2 ≤ lat) (h1 : lat < (W i1).2) :
    ∃ k : ZMod m, ascEdge m W lat k := by
  by_contra hno
  push_neg at hno
  have step : ∀ k : ZMod m, (W k).2 ≤ lat → (W (k + 1)).2 ≤ lat := by
    intro k hk
    by_contra hlt
    exact hno k ⟨hk, lt_of_not_le hlt⟩
  have iter : ∀ n : ℕ, (W (i0 + (n : ZMod m))).2 ≤ lat := by
    intro n
    induction n with
    | zero => simpa using h0
    | succ n ih =>
        have : i0 + ((n + 1 : ℕ) : ZMod m) = (i0 + (n : ZMod m)) + 1 := by
          push_cast
          ring
        rw [this]
        exact step _ ih
  have hi1 : i1 = i0 + (((i1 - i0).val : ℕ) : ZMod m) := by
    rw [ZMod.natCast_zmod_val]
    ring
  rw [hi1] at h1
  exact absurd (iter (i1 - i0).val) (not_le.mpr h1)

lemma corner_top (ux uy vx vy qx qy : ℚ) (huy : 0 ≤ uy) (hvy : vy ≤ 0)
    (huv : 0 < ux * vy - uy * vx) (h1 : 0 < ux * qy - uy * qx)
    (h2 : 0 < vx * qy - vy * qx) (hqy : 0 ≤ qy) : False := by
  rcases eq_or_lt_of_le huy with h | h
  · rcases eq_or_lt_of_le hvy with h' | h'
    · rw [← h, h'] at huv
      simp at huv
    · nlinarith [mul_pos (neg_pos.mpr h') h1, mul_nonneg huy h2.le,
        mul_nonneg hqy huv.le]
  · nlinarith [mul_pos h h2, mul_nonneg (neg_nonneg.mpr hvy) h1.le,
      mul_nonneg hqy huv.le]

lemma corner_bottom (ux uy vx vy qx qy : ℚ) (huy : uy ≤ 0) (hvy : 0 ≤ vy)
    (huv : 0 < ux * vy - uy * vx) (h1 : 0 < ux * qy - uy * qx)
    (h2 : 0 < vx * qy - vy * qx) (hqy : qy ≤ 0) : False := by
  rcases eq_or_lt_of_le hvy with h | h
  · rcases eq_or_lt_of_le huy with h' | h'
    · rw [← h, h'] at huv
      simp at huv
    · nlinarith [mul_pos (neg_pos.mpr h') h2, mul_nonneg hvy h1.le,
        mul_nonneg (neg_nonneg.mpr hqy) huv.le]
  · nlinarith [mul_pos h h1, mul_nonneg (neg_nonneg.mpr huy) h2.le,
      mul_nonneg (neg_nonneg.mpr hqy) huv.le]

lemma exists_above (m : ℕ) (hm : 3 ≤ m) (W : ZMod m → ℚ × ℚ) (hSC : ConvexCCW m W)
    (p : GeoPoint) (hin : StrictLeftAll m W p) :
    ∃ k : ZMod m, p.latitude < (W k).2 := by
  haveI : NeZero m := ⟨by omega⟩
  by_contra hc
  push_neg at hc
  obtain ⟨t, -, ht⟩ := Finset.exists_max_image Finset.univ (fun k : ZMod m => (W k).2)
    ⟨0, Finset.mem_univ 0⟩
  have htv : ∀ b : ZMod m, (W b).2 ≤ (W t).2 := fun b => ht b (Finset.mem_univ b)
  have h1ne0 : (1 : ZMod m) ≠ 0 := zmod_one_ne_zero m hm
  have h2ne0 : (2 : ZMod m) ≠ 0 := zmod_two_ne_zero m hm
  have hprev : t - 1 + 1 = t := by ring
  have hj1 : t + 1 ≠ t - 1 := by
    intro h
    apply h2ne0
    calc (2 : ZMod m) = (t + 1) - (t - 1) := by ring
    _ = 0 := by rw [h]; ring
  have hj2 : t + 1 ≠ (t - 1) + 1 := by
    rw [hprev]
    intro h
    apply h1ne0
    calc (1 : ZMod m) = (t + 1) - t := by ring
    _ = 0 := by rw [h]; ring
  have hsc := hSC (t - 1) (t + 1) hj1 hj2
  rw [hprev] at hsc
  have hcz1 : 0 < crossZ (W (t - 1)) (W t) p.longitude p.latitude := by
    have := hin (t - 1)
    rwa [hprev] at this
  have hcz2 : 0 < crossZ (W t) (W (t + 1)) p.longitude p.latitude := hin t
  have e1 : crossZ (W (t - 1)) (W t) p.longitude p.latitude
      = ((W t).1 - (W (t - 1)).1) * (p.latitude - (W t).2)
        - ((W t).2 - (W (t - 1)).2) * (p.longitude - (W t).1) :=
    crossZ_base _ _ _ _
  have e2 : crossZ (W t) (W (t + 1)) p.longitude p.latitude
      = ((W (t + 1)).1 - (W t).1) * (p.latitude - (W t).2)
        - ((W (t + 1)).2 - (W t).2) * (p.longitude - (W t).1) := by
    unfold crossZ; ring
  have e3 : crossZ (W (t - 1)) (W t) (W (t + 1)).1 (W (t + 1)).2
      = ((W t).1 - (W (t - 1)).1) * ((W (t + 1)).2 - (W t).2)
        - ((W t).2 - (W (t - 1)).2) * ((W (t + 1)).1 - (W t).1) :=
    crossZ_base _ _ _ _
  apply corner_top ((W t).1 - (W (t - 1)).1) ((W t).2 - (W (t - 1)).2)
    ((W (t + 1)).1 - (W t).1) ((W (t + 1)).2 - (W t).2)
    (p.longitude - (W t).1) (p.latitude - (W t).2)
  · have := htv (t - 1); linarith
  · have := htv (t + 1); linarith
  · linarith [hsc, e3]
  · linarith [hcz1, e1]
  · linarith [hcz2, e2]
  · have := hc t; linarith

lemma exists_below (m : ℕ) (hm : 3 ≤ m) (W : ZMod m → ℚ × ℚ) (hSC : ConvexCCW m W)
    (p : GeoPoint) (hin : StrictLeftAll m W p) :
    ∃ k : ZMod m, (W k).2 ≤ p.latitude := by
  haveI : NeZero m := ⟨by omega⟩
  by_contra hc
  push_neg at hc
  obtain ⟨t, -, ht⟩ := Finset.exists_min_image Finset.univ (fun k : ZMod m => (W k).2)
    ⟨0, Finset.mem_univ 0⟩
  have htv : ∀ b : ZMod m, (W t).2 ≤ (W b).2 := fun b => ht b (Finset.mem_univ b)
  have h1ne0 : (1 : ZMod m) ≠ 0 := zmod_one_ne_zero m hm
  have h2ne0 : (2 : ZMod m) ≠ 0 := zmod_two_ne_zero m hm
  have hprev : t - 1 + 1 = t := by ring
  have hj1 : t + 1 ≠ t - 1 := by
    intro h
    apply h2ne0
    calc (2 : ZMod m) = (t + 1) - (t - 1) := by ring
    _ = 0 := by rw [h]; ring
  have hj2 : t + 1 ≠ (t - 1) + 1 := by
    rw [hprev]
    intro h
    apply h1ne0
    calc (1 : ZMod m) = (t + 1) - t := by ring
    _ = 0 := by rw [h]; ring
  have hsc := hSC (t - 1) (t + 1) hj1 hj2
  rw [hprev] at hsc
  have hcz1 : 0 < crossZ (W (t - 1)) (W t) p.longitude p.latitude := by
    have := hin (t - 1)
    rwa [hprev] at this
  have hcz2 : 0 < crossZ (W t) (W (t + 1)) p.longitude p.latitude := hin t
  have e1 : crossZ (W (t - 1)) (W t) p.longitude p.latitude
      = ((W t).1 - (W (t - 1)).1) * (p.latitude - (W t).2)
        - ((W t).2 - (W (t - 1)).2) * (p.longitude - (W t).1) :=
    crossZ_base _ _ _ _
  have e2 : crossZ (W t) (W (t + 1)) p.longitude p.latitude
      = ((W (t + 1)).1 - (W t).1) * (p.latitude - (W t).2)
        - ((W (t + 1)).2 - (W t).2) * (p.longitude - (W t).1) := by
    unfold crossZ; ring
  have e3 : crossZ (W (t - 1)) (W t) (W (t + 1)).1 (W (t + 1)).2
      = ((W t).1 - (W (t - 1)).1) * ((W (t + 1)).2 - (W t).2)
        - ((W t).2 - (W (t - 1)).2) * ((W (t + 1)).1 - (W t).1) :=
    crossZ_base _ _ _ _
  apply corner_bottom ((W t).1 - (W (t - 1)).1) ((W t).2 - (W (t - 1)).2)
    ((W (t + 1)).1 - (W t).1) ((W (t + 1)).2 - (W t).2)
    (p.longitude - (W t).1) (p.latitude - (W t).2)
  · have := htv (t - 1); linarith
  · have := htv (t + 1); linarith
  · linarith [hsc, e3]
  · linarith [hcz1, e1]
  · linarith [hcz2, e2]
  · have := hc t; linarith

lemma crossZ_affine_x (A B : ℚ × ℚ) (x1 x2 lat s : ℚ) :
    crossZ A B ((1 - s) * x1 + s * x2) lat
      = (1 - s) * crossZ A B x1 lat + s * crossZ A B x2 lat := by
  unfold crossZ; ring

lemma toggle_count_inside (m : ℕ) [NeZero m] (hm : 3 ≤ m) (W : ZMod m → ℚ × ℚ)
    (hSC : ConvexCCW m W) (p : GeoPoint) (hin : StrictLeftAll m W p) :
    (Finset.univ.filter (fun z : ZMod m =>
      edgeToggle p.latitude p.longitude (W z) (W (z + 1)) = true)).card = 1 := by
  have hset : (Finset.univ.filter (fun z : ZMod m =>
      edgeToggle p.latitude p.longitude (W z) (W (z + 1)) = true))
      = (Finset.univ.filter (fun z : ZMod m => ascEdge m W p.latitude z)) := by
    ext k
    simp only [Finset.mem_filter, Finset.mem_univ, true_and]
    rw [edgeToggle_iff]
    constructor
    · rintro (⟨ha, -⟩ | ⟨-, hneg⟩)
      · exact ha
      · exact absurd (hin k) (not_lt.mpr hneg.le)
    · intro ha
      exact Or.inl ⟨ha, hin k⟩
  rw [hset]
  obtain ⟨i1, h1⟩ := exists_above m hm W hSC p hin
  obtain ⟨i0, h0⟩ := exists_below m hm W hSC p hin
  obtain ⟨a, ha⟩ := exists_asc_of_nonconst m W p.latitude i0 i1 h0 h1
  rw [Finset.card_eq_one]
  refine ⟨a, ?_⟩
  ext k
  simp only [Finset.mem_filter, Finset.mem_univ, true_and, Finset.mem_singleton]
  constructor
  · intro hk
    exact (ascEdge_unique m W hSC p.latitude a k ha hk).symm
  · rintro rfl
    exact ha

lemma toggle_count_outside (m : ℕ) [NeZero m] (hm : 3 ≤ m) (W : ZMod m → ℚ × ℚ)
    (hSC : ConvexCCW m W) (p : GeoPoint) (hout : SomeStrictRight m W p) :
    Even (Finset.univ.filter (fun z : ZMod m =>
      edgeToggle p.latitude p.longitude (W z) (W (z + 1)) = true)).card := by
  obtain ⟨k0, hk0⟩ := hout
  by_cases hasc : ∃ a : ZMod m, ascEdge m W p.latitude a
  · obtain ⟨a, ha⟩ := hasc
    have hu : (Finset.univ.filter (fun k : ZMod m => ascEdge m W p.latitude k)).card = 1 := by
      rw [Finset.card_eq_one]
      refine ⟨a, ?_⟩
      ext k
      simp only [Finset.mem_filter, Finset.mem_univ, true_and, Finset.mem_singleton]
      exact ⟨fun hk => (ascEdge_unique m W hSC p.latitude a k ha hk).symm,
        fun h => h ▸ ha⟩
    have hd : (Finset.univ.filter (fun k : ZMod m => descEdge m W p.latitude k)).card = 1 := by
      rw [← card_asc_eq_card_desc m W p.latitude]
      exact hu
    obtain ⟨b, hbset⟩ := Finset.card_eq_one.mp hd
    have hb : descEdge m W p.latitude b := by
      have : b ∈ Finset.univ.filter (fun k : ZMod m => descEdge m W p.latitude k) := by
        rw [hbset]; exact Finset.mem_singleton_self b
      simpa using this
    have hdesc_uniq : ∀ k : ZMod m, descEdge m W p.latitude k → k = b := by
      intro k hk
      have : k ∈ Finset.univ.filter (fun k : ZMod m => descEdge m W p.latitude k) := by
        simp [hk]
      rw [hbset] at this
      simpa using this
    have hab : a ≠ b := by
      intro h
      subst h
      exact absurd hb.1 (not_le.mpr ha.2)
    have hdena : (W a).2 < (W (a + 1)).2 := lt_of_le_of_lt ha.1 ha.2
    have hdenb : (W (b + 1)).2 < (W b).2 := lt_of_le_of_lt hb.1 hb.2
    have hdaene : (W a).2 ≠ (W (a + 1)).2 := ne_of_lt hdena
    have hdbene : (W b).2 ≠ (W (b + 1)).2 := ne_of_gt hdenb
    have hQa : ∀ k : ZMod m,
        0 ≤ crossZ (W k) (W (k + 1)) (xCross (W a) (W (a + 1)) p.latitude) p.latitude := by
      intro k
      obtain ⟨ht0, ht1⟩ := asc_t_range (W a) (W (a + 1)) p.latitude ha.1 ha.2
      exact crossZ_xCross_nonneg (W k) (W (k + 1)) (W a) (W (a + 1)) p.latitude hdaene
        (vertex_nonneg m W hSC k a) (vertex_nonneg m W hSC k (a + 1)) ht0 ht1
    have hQb : ∀ k : ZMod m,
        0 ≤ crossZ (W k) (W (k + 1)) (xCross (W b) (W (b + 1)) p.latitude) p.latitude := by
      intro k
      obtain ⟨ht0, ht1⟩ := desc_t_range (W b) (W (b + 1)) p.latitude hb.1 hb.2
      exact crossZ_xCross_nonneg (W k) (W (k + 1)) (W b) (W (b + 1)) p.latitude hdbene
        (vertex_nonneg m W hSC k b) (vertex_nonneg m W hSC k (b + 1)) ht0 ht1
    have hxba : xCross (W b) (W (b + 1)) p.latitude ≤ xCross (W a) (W (a + 1)) p.latitude := by
      have hrepr := crossZ_at_lat (W a) (W (a + 1)) p.latitude
        (xCross (W b) (W (b + 1)) p.latitude) hdaene
      nlinarith [hQb a, hrepr, hdena]
    have hta : (edgeToggle p.latitude p.longitude (W a) (W (a + 1)) = true)
        ↔ p.longitude < xCross (W a) (W (a + 1)) p.latitude := by
      rw [edgeToggle_iff]
      have hrepr := crossZ_at_lat (W a) (W (a + 1)) p.latitude p.longitude hdaene
      constructor
      · rintro (⟨-, hpos⟩ | ⟨hdsc, -⟩)
        · nlinarith [hrepr, hdena]
        · exact absurd (hdesc_uniq a hdsc) hab
      · intro hlng
        exact Or.inl ⟨⟨ha.1, ha.2⟩, by nlinarith [hrepr, hdena]⟩
    have htb : (edgeToggle p.latitude p.longitude (W b) (W (b + 1)) = true)
        ↔ p.longitude < xCross (W b) (W (b + 1)) p.latitude := by
      rw [edgeToggle_iff]
      have hrepr := crossZ_at_lat (W b) (W (b + 1)) p.latitude p.longitude hdbene
      constructor
      · rintro (⟨hascb, -⟩ | ⟨-, hneg⟩)
        · exact absurd (ascEdge_unique m W hSC p.latitude a b ha hascb) hab
        · nlinarith [hrepr, hdenb]
      · intro hlng
        exact Or.inr ⟨⟨hb.1, hb.2⟩, by nlinarith [hrepr, hdenb]⟩
    have hkey : (p.longitude < xCross (W a) (W (a + 1)) p.latitude)
        ↔ (p.longitude < xCross (W b) (W (b + 1)) p.latitude) := by
      constructor
      · intro h1
        by_contra h2
        push_neg at h2
        have hlt : xCross (W b) (W (b + 1)) p.latitude
            < xCross (W a) (W (a + 1)) p.latitude := lt_of_le_of_lt h2 h1
        have hscomb : ∀ k : ZMod m, 0 ≤ crossZ (W k) (W (k + 1)) p.longitude p.latitude := by
          intro k
          have hs0 : 0 ≤ (p.longitude - xCross (W b) (W (b + 1)) p.latitude)
              / (xCross (W a) (W (a + 1)) p.latitude
                - xCross (W b) (W (b + 1)) p.latitude) :=
            div_nonneg (by linarith) (by linarith)
          have hs1 : (p.longitude - xCross (W b) (W (b + 1)) p.latitude)
              / (xCross (W a) (W (a + 1)) p.latitude
                - xCross (W b) (W (b + 1)) p.latitude) ≤ 1 := by
            rw [div_le_one (by linarith)]
            linarith
          have hxne : xCross (W a) (W (a + 1)) p.latitude
              - xCross (W b) (W (b + 1)) p.latitude ≠ 0 := ne_of_gt (by linarith)
          have hx : (1 - (p.longitude - xCross (W b) (W (b + 1)) p.latitude)
              / (xCross (W a) (W (a + 1)) p.latitude
                - xCross (W b) (W (b + 1)) p.latitude))
                * xCross (W b) (W (b + 1)) p.latitude
              + ((p.longitude - xCross (W b) (W (b + 1)) p.latitude)
                / (xCross (W a) (W (a + 1)) p.latitude
                  - xCross (W b) (W (b + 1)) p.latitude))
                * xCross (W a) (W (a + 1)) p.latitude
              = p.longitude := by
            field_simp [hxne]
            ring
          have hcomb := crossZ_affine_x (W k) (W (k + 1))
            (xCross (W b) (W (b + 1)) p.latitude) (xCross (W a) (W (a + 1)) p.latitude)
            p.latitude
            ((p.longitude - xCross (W b) (W (b + 1)) p.latitude)
              / (xCross (W a) (W (a + 1)) p.latitude
                - xCross (W b) (W (b + 1)) p.latitude))
          rw [hx] at hcomb
          rw [hcomb]
          have h1nn : 0 ≤ 1 - (p.longitude - xCross (W b) (W (b + 1)) p.latitude)
              / (xCross (W a) (W (a + 1)) p.latitude
                - xCross (W b) (W (b + 1)) p.latitude) := by linarith
          exact add_nonneg (mul_nonneg h1nn (hQb k)) (mul_nonneg hs0 (hQa k))
        exact absurd hk0 (not_lt.mpr (hscomb k0))
      · intro h2
        exact lt_of_lt_of_le h2 hxba
    by_cases htog : edgeToggle p.latitude p.longitude (W a) (W (a + 1)) = true
    · have htogb : edgeToggle p.latitude p.longitude (W b) (W (b + 1)) = true := by
        rw [htb]
        exact hkey.mp (hta.mp htog)
      have hpair : (Finset.univ.filter (fun z : ZMod m =>
          edgeToggle p.latitude p.longitude (W z) (W (z + 1)) = true)) = {a, b} := by
        ext k
        simp only [Finset.mem_filter, Finset.mem_univ, true_and, Finset.mem_insert,
          Finset.mem_singleton]
        constructor
        · intro hk
          rcases (edgeToggle_iff p.latitude p.longitude (W k) (W (k + 1))).mp hk with
            ⟨hka, -⟩ | ⟨hkd, -⟩
          · exact Or.inl (ascEdge_unique m W hSC p.latitude k a hka ha)
          · exact Or.inr (hdesc_uniq k hkd)
        · rintro (rfl | rfl)
          · exact htog
          · exact htogb
      rw [hpair, Finset.card_insert_of_not_mem (by simpa using hab), Finset.card_singleton]
      exact even_two
    · have htogb : ¬ edgeToggle p.latitude p.longitude (W b) (W (b + 1)) = true := by
        rw [htb]
        intro h
        exact htog (hta.mpr (hkey.mpr h))
      have hempty : (Finset.univ.filter (fun z : ZMod m =>
          edgeToggle p.latitude p.longitude (W z) (W (z + 1)) = true)) = ∅ := by
        rw [Finset.eq_empty_iff_forall_not_mem]
        intro k hk
        simp only [Finset.mem_filter, Finset.mem_univ, true_and] at hk
        rcases (edgeToggle_iff p.latitude p.longitude (W k) (W (k + 1))).mp hk with
          ⟨hka, -⟩ | ⟨hkd, -⟩
        · exact htog ((ascEdge_unique m W hSC p.latitude k a hka ha) ▸ hk)
        · exact htogb ((hdesc_uniq k hkd) ▸ hk)
      rw [hempty, Finset.card_empty]
      exact even_zero
  · have hasc0 : (Finset.univ.filter (fun k : ZMod m => ascEdge m W p.latitude k)) = ∅ := by
      rw [Finset.eq_empty_iff_forall_not_mem]
      intro k hk
      simp only [Finset.mem_filter, Finset.mem_univ, true_and] at hk
      exact hasc ⟨k, hk⟩
    have hdesc0 : (Finset.univ.filter (fun k : ZMod m => descEdge m W p.latitude k)) = ∅ := by
      have hcard := card_asc_eq_card_desc m W p.latitude
      rw [hasc0, Finset.card_empty] at hcard
      exact Finset.card_eq_zero.mp hcard.symm
    have hempty : (Finset.univ.filter (fun z : ZMod m =>
        edgeToggle p.latitude p.longitude (W z) (W (z + 1)) = true)) = ∅ := by
      rw [Finset.eq_empty_iff_forall_not_mem]
      intro k hk
      simp only [Finset.mem_filter, Finset.mem_univ, true_and] at hk
      rcases (edgeToggle_iff p.latitude p.longitude (W k) (W (k + 1))).mp hk with
        ⟨hka, -⟩ | ⟨hkd, -⟩
      · exact hasc ⟨k, hka⟩
      · have hmem : k ∈ Finset.univ.filter (fun k : ZMod m => descEdge m W p.latitude k) :=
          Finset.mem_filter.mpr ⟨Finset.mem_univ k, hkd⟩
        rw [hdesc0] at hmem
        exact absurd hmem (Finset.not_mem_empty k)
    rw [hempty, Finset.card_empty]
    exact even_zero

lemma pip_true_of_inside_ccw (m : ℕ) (hm : 3 ≤ m) (W : ZMod m → ℚ × ℚ)
    (hSC : ConvexCCW m W) (p : GeoPoint) (hin : StrictLeftAll m W p) :
    isPointInPolygon p (ringOf m W) = true := by
  haveI : NeZero m := ⟨by omega⟩
  rw [isPointInPolygon_ringOf, toggle_count_inside m hm W hSC p hin]
  simp [Nat.odd_iff]

lemma pip_false_of_outside_ccw (m : ℕ) (hm : 3 ≤ m) (W : ZMod m → ℚ × ℚ)
    (hSC : ConvexCCW m W) (p : GeoPoint) (hout : SomeStrictRight m W p) :
    isPointInPolygon p (ringOf m W) = false := by
  haveI : NeZero m := ⟨by omega⟩
  rw [isPointInPolygon_ringOf]
  have heven := toggle_count_outside m hm W hSC p hout
  rw [← Nat.not_odd_iff_even] at heven
  exact decide_eq_false heven

lemma edgeToggle_symm (lat lng : ℚ) (A B : ℚ × ℚ) :
    edgeToggle lat lng A B = edgeToggle lat lng B A := by
  have hiff : (edgeToggle lat lng A B = true) ↔ (edgeToggle lat lng B A = true) := by
    rw [edgeToggle_iff, edgeToggle_iff]
    have hsw : crossZ B A lng lat = -crossZ A B lng lat := crossZ_swap A B lng lat
    constructor
    · rintro (⟨hA, hc⟩ | ⟨hB, hc⟩)
      · exact Or.inr ⟨hA, by rw [hsw]; linarith⟩
      · exact Or.inl ⟨hB, by rw [hsw]; linarith⟩
    · rintro (⟨hB, hc⟩ | ⟨hA, hc⟩)
      · rw [hsw] at hc
        exact Or.inr ⟨hB, by linarith⟩
      · rw [hsw] at hc
        exact Or.inl ⟨hA, by linarith⟩
  cases hA : edgeToggle lat lng A B <;> cases hB : edgeToggle lat lng B A <;> simp_all

lemma toggle_count_flip (m : ℕ) [NeZero m] (W : ZMod m → ℚ × ℚ) (lat lng : ℚ) :
    (Finset.univ.filter (fun z : ZMod m =>
        edgeToggle lat lng ((fun k : ZMod m => W (-k)) z)
          ((fun k : ZMod m => W (-k)) (z + 1)) = true)).card
      = (Finset.univ.filter (fun z : ZMod m =>
          edgeToggle lat lng (W z) (W (z + 1)) = true)).card := by
  apply Finset.card_nbij' (fun z : ZMod m => -z - 1) (fun z : ZMod m => -z - 1)
  · intro z hz
    simp only [Finset.mem_filter, Finset.mem_univ, true_and] at hz ⊢
    rw [show -(z + 1) = -z - 1 from by ring] at hz
    rw [edgeToggle_symm] at hz
    rw [show (-z - 1) + 1 = -z from by ring]
    exact hz
  · intro z hz
    simp only [Finset.mem_filter, Finset.mem_univ, true_and] at hz ⊢
    rw [show -(-z - 1) = z + 1 from by ring, show -(-z - 1 + 1) = z from by ring]
    rw [edgeToggle_symm]
    exact hz
  · intro z _
    ring
  · intro z _
    ring

lemma convexCW_flip (m : ℕ) (W : ZMod m → ℚ × ℚ) (h : ConvexCW m W) :
    ConvexCCW m (fun k : ZMod m => W (-k)) := by
  intro k j hjk hjk1
  show 0 < crossZ (W (-k)) (W (-(k + 1))) (W (-j)).1 (W (-j)).2
  rw [show -(k + 1) = -k - 1 from by ring]
  have hj1 : -j ≠ -k - 1 := by
    intro h'
    apply hjk1
    have : j = k + 1 := by
      have := congrArg Neg.neg h'
      simpa using by linear_combination -h'
    exact this
  have hj2 : -j ≠ (-k - 1) + 1 := by
    rw [show (-k - 1) + 1 = -k from by ring]
    intro h'
    apply hjk
    linear_combination -h'
  have hlt := h (-k - 1) (-j) hj1 hj2
  rw [show (-k - 1) + 1 = -k from by ring] at hlt
  have hswap := crossZ_swap (W (-k)) (W (-k - 1)) (W (-j)).1 (W (-j)).2
  linarith

lemma strictRight_flip (m : ℕ) (W : ZMod m → ℚ × ℚ) (p : GeoPoint)
    (h : StrictRightAll m W p) : StrictLeftAll m (fun k : ZMod m => W (-k)) p := by
  intro k
  show 0 < crossZ (W (-k)) (W (-(k + 1))) p.longitude p.latitude
  rw [show -(k + 1) = -k - 1 from by ring]
  have hlt := h (-k - 1)
  rw [show (-k - 1) + 1 = -k from by ring] at hlt
  have hswap := crossZ_swap (W (-k)) (W (-k - 1)) p.longitude p.latitude
  linarith

lemma someLeft_flip (m : ℕ) (W : ZMod m → ℚ × ℚ) (p : GeoPoint)
    (h : SomeStrictLeft m W p) : SomeStrictRight m (fun k : ZMod m => W (-k)) p := by
  obtain ⟨k, hk⟩ := h
  refine ⟨-k - 1, ?_⟩
  show crossZ (W (-(-k - 1))) (W (-(-k - 1 + 1))) p.longitude p.latitude < 0
  rw [show -(-k - 1) = k + 1 from by ring, show -(-k - 1 + 1) = k from by ring]
  have hswap := crossZ_swap (W k) (W (k + 1)) p.longitude p.latitude
  linarith

lemma pip_true_of_inside_cw (m : ℕ) (hm : 3 ≤ m) (W : ZMod m → ℚ × ℚ)
    (hSC : ConvexCW m W) (p : GeoPoint) (hin : StrictRightAll m W p) :
    isPointInPolygon p (ringOf m W) = true := by
  haveI : NeZero m := ⟨by omega⟩
  rw [isPointInPolygon_ringOf]
  have hcnt := toggle_count_inside m hm (fun k : ZMod m => W (-k))
    (convexCW_flip m W hSC) p (strictRight_flip m W p hin)
  rw [toggle_count_flip m W p.latitude p.longitude] at hcnt
  rw [hcnt]
  simp [Nat.odd_iff]

lemma pip_false_of_outside_cw (m : ℕ) (hm : 3 ≤ m) (W : ZMod m → ℚ × ℚ)
    (hSC : ConvexCW m W) (p : GeoPoint) (hout : SomeStrictLeft m W p) :
    isPointInPolygon p (ringOf m W) = false := by
  haveI : NeZero m := ⟨by omega⟩
  rw [isPointInPolygon_ringOf]
  have heven := toggle_count_outside m hm (fun k : ZMod m => W (-k))
    (convexCW_flip m W hSC) p (someLeft_flip m W p hout)
  rw [toggle_count_flip m W p.latitude p.longitude] at heven
  rw [← Nat.not_odd_iff_even] at heven
  exact decide_eq_false heven

/-- C3: for every simple convex closed ring — presented by a vertex cycle `W`
in strict convex position (counterclockwise or clockwise), handed to the code
as the closed ring `ringOf m W` of `m + 1 ≥ 4` points — `isPointInPolygon`
returns `true` on every point strictly inside the ring (strictly on the
interior side of every edge) and `false` on every point strictly outside it
(strictly on the exterior side of some edge); and the test is deterministic:
the same input always yields the same output. -/
theorem C3_isPointInPolygon_convex (m : ℕ) (hm : 3 ≤ m) (W : ZMod m → ℚ × ℚ)
    (p : GeoPoint) :
    (ConvexCCW m W → StrictLeftAll m W p → isPointInPolygon p (ringOf m W) = true) ∧
    (ConvexCCW m W → SomeStrictRight m W p → isPointInPolygon p (ringOf m W) = false) ∧
    (ConvexCW m W → StrictRightAll m W p → isPointInPolygon p (ringOf m W) = true) ∧
    (ConvexCW m W → SomeStrictLeft m W p → isPointInPolygon p (ringOf m W) = false) ∧
    (∀ (q : GeoPoint) (r : List (ℚ × ℚ)), q = p → r = ringOf m W →
      isPointInPolygon q r = isPointInPolygon p (ringOf m W)) :=
  ⟨fun hSC hin => pip_true_of_inside_ccw m hm W hSC p hin,
   fun hSC hout => pip_false_of_outside_ccw m hm W hSC p hout,
   fun hSC hin => pip_true_of_inside_cw m hm W hSC p hin,
   fun hSC hout => pip_false_of_outside_cw m hm W hSC p hout,
   fun _ _ hq hr => by rw [hq, hr]⟩

lemma zmod4_forall {P : ZMod 4 → Prop} (h0 : P 0) (h1 : P 1) (h2 : P 2) (h3 : P 3) :
    ∀ k : ZMod 4, P k := by
  intro k
  obtain ⟨v, hv⟩ := k
  interval_cases v
  · exact h0
  · exact h1
  · exact h2
  · exact h3

lemma sqW_0 : sqW 0 = ((0 : ℚ), (0 : ℚ)) := rfl

lemma sqW_1 : sqW 1 = ((1 : ℚ), (0 : ℚ)) := rfl

lemma sqW_2 : sqW 2 = ((1 : ℚ), (1 : ℚ)) := rfl

lemma sqW_3 : sqW 3 = ((0 : ℚ), (1 : ℚ)) := rfl

lemma sqW_01 : sqW (0 + 1) = ((1 : ℚ), (0 : ℚ)) := rfl

lemma sqW_11 : sqW (1 + 1) = ((1 : ℚ), (1 : ℚ)) := rfl

lemma sqW_21 : sqW (2 + 1) = ((0 : ℚ), (1 : ℚ)) := rfl

lemma sqW_31 : sqW (3 + 1) = ((0 : ℚ), (0 : ℚ)) := rfl

lemma sqW_convex : ConvexCCW 4 sqW := by
  refine zmod4_forall ?_ ?_ ?_ ?_ <;> refine zmod4_forall ?_ ?_ ?_ ?_ <;>
    intro hjk hjk1 <;>
    first
      | exact absurd rfl hjk
      | exact absurd rfl hjk1
      | (simp only [sqW_0, sqW_1, sqW_2, sqW_3, sqW_01, sqW_11, sqW_21, sqW_31];
         norm_num [crossZ])

lemma sqW_inside : StrictLeftAll 4 sqW ⟨1/2, 1/2⟩ := by
  refine zmod4_forall ?_ ?_ ?_ ?_ <;>
    (simp only [StrictLeftAll, sqW_0, sqW_1, sqW_2, sqW_3, sqW_01, sqW_11, sqW_21, sqW_31];
     norm_num [crossZ])

lemma sqW_outside : SomeStrictRight 4 sqW ⟨1/2, 3⟩ := by
  refine ⟨1, ?_⟩
  rw [sqW_1, sqW_11]
  norm_num [crossZ]

/-- Witness for C3 on the unit square (counterclockwise), with a point
strictly inside and a point strictly outside. -/
theorem C3_isPointInPolygon_convex_witness :
    isPointInPolygon ⟨1/2, 1/2⟩ (ringOf 4 sqW) = true
    ∧ isPointInPolygon ⟨1/2, 3⟩ (ringOf 4 sqW) = false :=
  ⟨(C3_isPointInPolygon_convex 4 (by norm_num) sqW ⟨1/2, 1/2⟩).1 sqW_convex sqW_inside,
   (C3_isPointInPolygon_convex 4 (by norm_num) sqW ⟨1/2, 3⟩).2.1 sqW_convex sqW_outside⟩

/-! ## Helper lemmas: stride decimation -/

lemma stride_filter_head (n step : ℕ) (hn : 0 < n) :
    ∃ rest, (List.range n).filter (fun index => decide (index % step = 0)) = 0 :: rest := by
  obtain ⟨n', rfl⟩ : ∃ n', n = n' + 1 := ⟨n - 1, by omega⟩
  rw [List.range_succ_eq_map, List.filter_cons]
  simp only [Nat.zero_mod, decide_eq_true_eq, if_pos rfl]
  exact ⟨_, rfl⟩

lemma stride_filter_getLast (n step : ℕ) (hn : 0 < n) (hlast : (n - 1) % step = 0) :
    ((List.range n).filter (fun index => decide (index % step = 0))).getLast?
      = some (n - 1) := by
  obtain ⟨n', rfl⟩ : ∃ n', n = n' + 1 := ⟨n - 1, by omega⟩
  rw [Nat.add_sub_cancel] at hlast ⊢
  rw [List.range_succ, List.filter_append]
  have : List.filter (fun index => decide (index % step = 0)) [n'] = [n'] := by
    simp [hlast]
  rw [this, List.getLast?_concat]

lemma stride_filter_card_le (n step : ℕ) (hstep : 0 < step) (hle : n ≤ 50 * step) :
    ((List.range n).filter (fun index => decide (index % step = 0))).length ≤ 50 := by
  rw [← List.countP_eq_length_filter, countP_range_eq_card]
  have hcard : ((Finset.range n).filter
      (fun k : ℕ => decide (k % step = 0) = true)).card ≤ (Finset.range 50).card := by
    apply Finset.card_le_card_of_injOn (fun i => i / step)
    · intro a ha
      simp only [Finset.mem_filter, Finset.mem_range, decide_eq_true_eq] at ha
      rw [Finset.mem_range]
      exact Nat.div_lt_of_lt_mul (by rw [Nat.mul_comm]; exact lt_of_lt_of_le ha.1 hle)
    · intro a ha b hb hab
      simp only [Finset.coe_filter, Set.mem_setOf_eq, Finset.mem_range,
        decide_eq_true_eq] at ha hb
      have hda : step ∣ a := Nat.dvd_of_mod_eq_zero ha.2
      have hdb : step ∣ b := Nat.dvd_of_mod_eq_zero hb.2
      have hab' : a / step = b / step := hab
      calc a = a / step * step := (Nat.div_mul_cancel hda).symm
      _ = b / step * step := by rw [hab']
      _ = b := Nat.div_mul_cancel hdb
  simpa using hcard

lemma getD_length_sub_one {α : Type} (l : List α) (d : α) (h : l ≠ []) :
    l.getD (l.length - 1) d = l.getLast h := by
  rw [List.getD_eq_getElem _ _ (by have := List.length_pos.mpr h; omega)]
  rw [List.getLast_eq_getElem]

lemma strideDecimate_closed (r : List (ℚ × ℚ)) (step : ℕ) (h : closedRing r) :
    closedRing (strideDecimate r step) := by
  obtain ⟨hne, hcl⟩ := h
  have hn : 0 < r.length := List.length_pos.mpr hne
  obtain ⟨rest, hcons⟩ := stride_filter_head r.length step hn
  unfold strideDecimate
  set L := (((List.range r.length).filter
    (fun index => decide (index % step = 0))).map
      (fun index => r.getD index (0, 0))) with hL
  have hLne : L ≠ [] := by rw [hL, hcons]; simp
  have hLpos : 0 < L.length := List.length_pos.mpr hLne
  have hLhead : L.getD 0 (0, 0) = r.getD 0 (0, 0) := by rw [hL, hcons]; rfl
  by_cases hl : (r.length - 1) % step = 0
  · rw [if_pos hl]
    have hlast := stride_filter_getLast r.length step hn hl
    have hLlast : L.getLast? = some (r.getD (r.length - 1) (0, 0)) := by
      rw [hL, List.getLast?_map, hlast]
      rfl
    refine ⟨hLne, ?_⟩
    rw [hLhead, getD_length_sub_one L (0, 0) hLne]
    rw [List.getLast?_eq_getLast L hLne] at hLlast
    rw [Option.some_injective _ hLlast]
    exact hcl
  · rw [if_neg hl]
    refine ⟨by simp, ?_⟩
    rw [List.length_append, List.getD_append _ _ _ _ hLpos, hLhead,
      List.getD_append_right _ _ _ _ (by simp)]
    simp only [List.length_singleton]
    rw [Nat.add_sub_cancel, Nat.sub_self]
    simpa using hcl

lemma strideDecimate_length_le (r : List (ℚ × ℚ)) (step : ℕ) (hstep : 0 < step)
    (hle : r.length ≤ 50 * step) : (strideDecimate r step).length ≤ 51 := by
  have hfl := stride_filter_card_le r.length step hstep hle
  unfold strideDecimate
  by_cases hl : (r.length - 1) % step = 0
  · rw [if_pos hl]
    simp only [List.length_map]
    omega
  · rw [if_neg hl]
    simp only [List.length_append, List.length_map, List.length_singleton]
    omega

lemma hardCapRing_length_le (r : List (ℚ × ℚ)) (h : 100 < r.length) :
    (hardCapRing r).length ≤ 100 := by
  unfold hardCapRing
  rw [if_pos h]
  have hstep : 0 < (r.length + 49) / 50 := Nat.div_pos (by omega) (by norm_num)
  have hle : r.length ≤ 50 * ((r.length + 49) / 50) := by
    have h1 := Nat.div_add_mod (r.length + 49) 50
    have h2 : (r.length + 49) % 50 < 50 := Nat.mod_lt _ (by norm_num)
    omega
  have := strideDecimate_length_le r ((r.length + 49) / 50) hstep hle
  omega

lemma hardCapRing_closed (r : List (ℚ × ℚ)) (h : closedRing r) :
    closedRing (hardCapRing r) := by
  unfold hardCapRing
  by_cases hlen : 100 < r.length
  · rw [if_pos hlen]
    exact strideDecimate_closed r _ h
  · rw [if_neg hlen]
    exact h

/-- C1: for every input collection whose `Polygon` features have closed primary
rings, and for every closure-preserving primary simplification pass (the
external Douglas-Peucker library keeps ring endpoints), the output of
`simplifyGeoJSON` still has closed primary rings; in particular the hard-cap
stride decimation re-appends the original last point whenever the stride drops
it, so it preserves closure of every ring it rewrites. -/
theorem C1_simplify_preserves_closure :
    (∀ r : List (ℚ × ℚ), closedRing r → closedRing (hardCapRing r)) ∧
    (∀ primary : FeatureCollection → FeatureCollection,
      (∀ g, closedPrimaryRings g → closedPrimaryRings (primary g)) →
      ∀ g, closedPrimaryRings g → closedPrimaryRings (simplifyGeoJSON primary g)) := by
  constructor
  · exact fun r h => hardCapRing_closed r h
  · intro primary hprim g hg f hf
    rw [show (simplifyGeoJSON primary g).features
        = (primary g).features.map hardCapFeature from rfl] at hf
    obtain ⟨f0, hf0, rfl⟩ := List.mem_map.mp hf
    have hg0 := hprim g hg f0 hf0
    obtain ⟨geo, props⟩ := f0
    cases geo with
    | polygon coords =>
        cases coords with
        | nil => exact trivial
        | cons r rest => exact hardCapRing_closed r hg0
    | multiPolygon coords => exact trivial
    | other => exact trivial

/-- Witness for C1: a closed 4-point triangle ring through the hard cap, and a
1-feature collection through `simplifyGeoJSON` with the identity primary
pass. -/
theorem C1_simplify_preserves_closure_witness :
    closedRing (hardCapRing [((0 : ℚ), (0 : ℚ)), (1, 0), (0, 1), (0, 0)]) ∧
    closedPrimaryRings (simplifyGeoJSON id
      ⟨[⟨.polygon [[((0 : ℚ), (0 : ℚ)), (1, 0), (0, 1), (0, 0)]], Properties.empty⟩]⟩) := by
  constructor
  · exact C1_simplify_preserves_closure.1 _ ⟨by simp, rfl⟩
  · refine C1_simplify_preserves_closure.2 id (fun g h => h) _ ?_
    intro f hf
    simp only [List.mem_singleton] at hf
    subst hf
    exact ⟨by simp, rfl⟩

/-- C2: every ring longer than `maxPoints = 100` is rewritten by the secondary
hard cap of `simplifyGeoJSON` to at most 100 points (in fact at most 51); the
cap applies stride decimation with stride `Math.ceil(length / 50)` —
`(length + 49) / 50` in exact arithmetic — to the primary ring of each
`Polygon` feature of the primary pass's output, re-appending the original
last point when the stride dropped it. -/
theorem C2_hard_cap_length :
    (∀ r : List (ℚ × ℚ), 100 < r.length → (hardCapRing r).length ≤ 100) ∧
    (∀ (primary : FeatureCollection → FeatureCollection) (g : FeatureCollection),
      (simplifyGeoJSON primary g).features = (primary g).features.map hardCapFeature) ∧
    (∀ (r : List (ℚ × ℚ)) (rest : List (List (ℚ × ℚ))) (props : Properties),
      hardCapFeature ⟨.polygon (r :: rest), props⟩
        = ⟨.polygon (hardCapRing r :: rest), props⟩) ∧
    (∀ r : List (ℚ × ℚ), 100 < r.length →
      hardCapRing r = strideDecimate r ((r.length + 49) / 50)) := by
  refine ⟨fun r h => hardCapRing_length_le r h, fun primary g => rfl,
    fun r rest props => rfl, fun r h => ?_⟩
  unfold hardCapRing
  rw [if_pos h]

/-- Witness for C2: a 101-point ring is capped to at most 100 points. -/
theorem C2_hard_cap_length_witness :
    (hardCapRing ((List.range 101).map (fun i : ℕ => ((i : ℚ), (0 : ℚ))))).length ≤ 100 :=
  C2_hard_cap_length.1 _ (by simp)

/-! ## Helper lemmas: first-match search -/

lemma find?_first_of_minimal {α : Type} (p : α → Bool) (l : List α) (i : ℕ) (x : α)
    (hx : l.get? i = some x) (hpx : p x = true)
    (hmin : ∀ j y, j < i → l.get? j = some y → p y = false) :
    l.find? p = some x := by
  induction l generalizing i with
  | nil => simp at hx
  | cons a l ih =>
    cases i with
    | zero =>
        rw [List.get?_cons_zero] at hx
        obtain rfl := Option.some_injective _ hx
        exact List.find?_cons_of_pos l hpx
    | succ j =>
        have hpa : p a = false := hmin 0 a (Nat.succ_pos j) List.get?_cons_zero
        rw [List.find?_cons_of_neg l (by simp [hpa])]
        rw [List.get?_cons_succ] at hx
        exact ih j hx (fun j' y hj' hy =>
          hmin (j' + 1) y (Nat.succ_lt_succ hj') (by rwa [List.get?_cons_succ]))

/-- C4: `findWardForPoint` returns the first feature in collection order whose
polygon contains the point; it returns `none` when the point or the collection
is absent or when no feature contains the point; and a `MultiPolygon` feature
matches when any of its tested rings (the primary ring of each of its
polygons) contains the point. -/
theorem C4_findWardForPoint_first_match :
    (∀ g : FeatureCollection, findWardForPoint none (some g) = none) ∧
    (∀ p : GeoPoint, findWardForPoint (some p) none = none) ∧
    (findWardForPoint none none = none) ∧
    (∀ (p : GeoPoint) (g : FeatureCollection),
      (∀ f ∈ g.features, featureContains p f = false) →
      findWardForPoint (some p) (some g) = none) ∧
    (∀ (p : GeoPoint) (g : FeatureCollection) (i : ℕ) (fi : Feature),
      g.features.get? i = some fi → featureContains p fi = true →
      (∀ j fj, j < i → g.features.get? j = some fj → featureContains p fj = false) →
      findWardForPoint (some p) (some g) = some fi) ∧
    (∀ (p : GeoPoint) (rings : List (List (List (ℚ × ℚ)))) (props : Properties),
      featureContains p ⟨.multiPolygon rings, props⟩
        = rings.any (fun polygon => isPointInPolygon p (polygon.getD 0 []))) := by
  refine ⟨fun g => rfl, fun p => rfl, rfl, ?_, ?_, fun p rings props => rfl⟩
  · intro p g hall
    show g.features.find? (featureContains p) = none
    rw [List.find?_eq_none]
    intro x hx
    simp [hall x hx]
  · intro p g i fi hget hp hmin
    exact find?_first_of_minimal (featureContains p) g.features i fi hget hp hmin

/-- Witness for C4: two overlapping triangles both containing the query point;
the first one (in collection order) is returned. -/
theorem C4_findWardForPoint_first_match_witness :
    findWardForPoint (some ⟨1/2, 1/2⟩) (some
      ⟨[⟨.polygon [[((0 : ℚ), (0 : ℚ)), (2, 0), (0, 2)]], Properties.empty⟩,
        ⟨.polygon [[((0 : ℚ), (0 : ℚ)), (3, 0), (0, 3)]], Properties.empty⟩]⟩)
      = some ⟨.polygon [[((0 : ℚ), (0 : ℚ)), (2, 0), (0, 2)]], Properties.empty⟩ := by
  apply C4_findWardForPoint_first_match.2.2.2.2.1 ⟨1/2, 1/2⟩ _ 0
  · rfl
  · show isPointInPolygon ⟨1/2, 1/2⟩ [((0 : ℚ), (0 : ℚ)), (2, 0), (0, 2)] = true
    norm_num [isPointInPolygon, pipCond, List.range_succ]
  · intro j fj hj hget
    omega

/-! ## C5-C7: cache expiry, refresh, fallback -/

/-- C5: a cache entry older than the 2-hour expiry threshold is treated as
absent by the cache read — `null` is returned and the stored entry is purged —
so a normal load never serves it from cache; an unreadable cache entry is
likewise reported as a miss (never a fatal error), leaving storage untouched. -/
theorem C5_cache_expiry_and_corruption :
    (∀ (d : FeatureCollection) (ts now : ℤ),
      ((now - ts : ℤ) : ℚ) / (1000 * 60 * 60) > CACHE_EXPIRY_HOURS →
      getCachedGeoJSON (some (.ok d ts)) now = (none, none)) ∧
    (∀ now : ℤ, getCachedGeoJSON (some .corrupt) now = (none, some .corrupt)) ∧
    (∀ (primary : FeatureCollection → FeatureCollection) (env : LoadEnv)
      (d : FeatureCollection) (ts : ℤ) (x : FeatureCollection),
      ((env.now - ts : ℤ) : ℚ) / (1000 * 60 * 60) > CACHE_EXPIRY_HOURS →
      (loadGeoJSON primary env (some (.ok d ts))).1 ≠ .cacheHit x) := by
  have hexp : ∀ (d : FeatureCollection) (ts now : ℤ),
      ((now - ts : ℤ) : ℚ) / (1000 * 60 * 60) > CACHE_EXPIRY_HOURS →
      getCachedGeoJSON (some (.ok d ts)) now = (none, none) := by
    intro d ts now h
    show (if ((now - ts : ℤ) : ℚ) / (1000 * 60 * 60) > CACHE_EXPIRY_HOURS
        then ((none, none) : Option FeatureCollection × Option StoredBlob)
        else (some d, some (.ok d ts))) = (none, none)
    rw [if_pos h]
  refine ⟨hexp, fun now => rfl, ?_⟩
  intro primary env d ts x h
  unfold loadGeoJSON
  rw [hexp d ts env.now h]
  cases env.primaryResp <;> cases env.fallbackResp <;> simp

/-- Witness for C5: a 3-hour-old entry (timestamp 0, now 10.8e6 ms) is purged
and a load over it cannot be a cache hit. -/
theorem C5_cache_expiry_and_corruption_witness :
    getCachedGeoJSON (some (.ok ⟨[]⟩ 0)) 10800000 = (none, none) ∧
    (loadGeoJSON id ⟨none, none, 10800000⟩ (some (.ok ⟨[]⟩ 0))).1
      ≠ LoadOutcome.cacheHit ⟨[]⟩ :=
  ⟨C5_cache_expiry_and_corruption.1 ⟨[]⟩ 0 10800000
      (by norm_num [CACHE_EXPIRY_HOURS]),
   C5_cache_expiry_and_corruption.2.2 id ⟨none, none, 10800000⟩ ⟨[]⟩ 0 ⟨[]⟩
      (by norm_num [CACHE_EXPIRY_HOURS])⟩

/-- C6: `refreshGeoJSON` first purges the cache entry and then re-runs the
full load cycle on the emptied storage, so its outcome is never a cache hit —
in particular a still-valid entry present when refresh is called is not
served — while a normal load over a still-valid entry does take the
cache-hit shortcut (refresh is the one deliberate bypass). -/
theorem C6_refresh_purges_then_reloads :
    (∀ (primary : FeatureCollection → FeatureCollection) (env : LoadEnv)
      (store : Option StoredBlob),
      refreshGeoJSON primary env store = loadGeoJSON primary env none) ∧
    (∀ (primary : FeatureCollection → FeatureCollection) (env : LoadEnv)
      (store : Option StoredBlob) (x : FeatureCollection),
      (refreshGeoJSON primary env store).1 ≠ .cacheHit x) ∧
    (∀ (primary : FeatureCollection → FeatureCollection) (env : LoadEnv)
      (d : FeatureCollection) (ts : ℤ),
      ¬ ((env.now - ts : ℤ) : ℚ) / (1000 * 60 * 60) > CACHE_EXPIRY_HOURS →
      loadGeoJSON primary env (some (.ok d ts)) = (.cacheHit d, some (.ok d ts))) := by
  refine ⟨fun primary env store => rfl, ?_, ?_⟩
  · intro primary env store x
    show (loadGeoJSON primary env none).1 ≠ .cacheHit x
    unfold loadGeoJSON
    rw [show getCachedGeoJSON none env.now = (none, none) from rfl]
    cases env.primaryResp <;> cases env.fallbackResp <;> simp
  · intro primary env d ts h
    unfold loadGeoJSON
    rw [show getCachedGeoJSON (some (.ok d ts)) env.now
        = (some d, some (.ok d ts)) from by
      show (if ((env.now - ts : ℤ) : ℚ) / (1000 * 60 * 60) > CACHE_EXPIRY_HOURS
          then ((none, none) : Option FeatureCollection × Option StoredBlob)
          else (some d, some (.ok d ts))) = (some d, some (.ok d ts))
      rw [if_neg h]]

/-- Witness for C6: with a fresh entry (age 0), a normal load serves the
cache, while refresh over the same storage is not a cache hit. -/
theorem C6_refresh_purges_then_reloads_witness :
    loadGeoJSON id ⟨none, none, 0⟩ (some (.ok ⟨[]⟩ 0))
      = (LoadOutcome.cacheHit ⟨[]⟩, some (.ok ⟨[]⟩ 0)) ∧
    (refreshGeoJSON id ⟨none, none, 0⟩ (some (.ok ⟨[]⟩ 0))).1
      ≠ LoadOutcome.cacheHit ⟨[]⟩ :=
  ⟨C6_refresh_purges_then_reloads.2.2 id ⟨none, none, 0⟩ ⟨[]⟩ 0
      (by norm_num [CACHE_EXPIRY_HOURS]),
   C6_refresh_purges_then_reloads.2.1 id ⟨none, none, 0⟩ (some (.ok ⟨[]⟩ 0)) ⟨[]⟩⟩

/-- C7: on a cache miss with a failed primary fetch and a successful fallback
fetch, the load cycle reports the fallback (`github`) as its data source —
not the primary — and the fetched collection goes through the simplifier and
the property-pruning step before being written to the cache. -/
theorem C7_fallback_source_and_pipeline
    (primary : FeatureCollection → FeatureCollection) (env : LoadEnv)
    (store : Option StoredBlob) (raw : FeatureCollection)
    (hmiss : (getCachedGeoJSON store env.now).1 = none)
    (hprimary : env.primaryResp = none)
    (hfallback : env.fallbackResp = some raw) :
    loadGeoJSON primary env store
      = (.fromGithub (optimizeGeoJSON primary raw),
         some (.ok (optimizeGeoJSON primary raw) env.now)) ∧
    optimizeGeoJSON primary raw
      = { simplifyGeoJSON primary raw with
          features := (simplifyGeoJSON primary raw).features.map pruneFeature } := by
  refine ⟨?_, rfl⟩
  unfold loadGeoJSON
  rcases hc : getCachedGeoJSON store env.now with ⟨res, store'⟩
  rw [hc] at hmiss
  simp only at hmiss
  subst hmiss
  rw [hprimary, hfallback]

/-- Witness for C7: empty cache, failing primary, fallback returning the empty
collection. -/
theorem C7_fallback_source_and_pipeline_witness :
    loadGeoJSON id ⟨none, some ⟨[]⟩, 0⟩ none
      = (LoadOutcome.fromGithub (optimizeGeoJSON id ⟨[]⟩),
         some (.ok (optimizeGeoJSON id ⟨[]⟩) 0)) :=
  (C7_fallback_source_and_pipeline id ⟨none, some ⟨[]⟩, 0⟩ none ⟨[]⟩ rfl rfl rfl).1

/-! ## C8: viewport filtering -/

lemma filterByBounds_some_some (g : FeatureCollection) (b : Bounds) :
    filterGeoJSONByBounds (some g) (some b)
      = some { g with features :=
          (g.features.enum.filter (fun q =>
            if q.1 % 2 ≠ 0 ∧ g.features.length > 50 then false
            else featureVertexTest (expandBounds b) q.2)).map Prod.snd } := rfl

lemma stride_then_test (g : FeatureCollection) (b : Bounds)
    (hbig : 50 < g.features.length) :
    (g.features.enum.filter (fun q =>
        if q.1 % 2 ≠ 0 ∧ g.features.length > 50 then false
        else featureVertexTest (expandBounds b) q.2)).map Prod.snd
      = ((g.features.enum.filter (fun q => q.1 % 2 = 0)).map Prod.snd).filter
          (featureVertexTest (expandBounds b)) := by
  have hcongr : g.features.enum.filter (fun q =>
      if q.1 % 2 ≠ 0 ∧ g.features.length > 50 then false
      else featureVertexTest (expandBounds b) q.2)
      = g.features.enum.filter (fun q =>
          (featureVertexTest (expandBounds b) ∘ Prod.snd) q && decide (q.1 % 2 = 0)) := by
    apply List.filter_congr
    intro q _
    by_cases he : q.1 % 2 = 0
    · rw [if_neg (by simp [he])]
      simp [he]
    · rw [if_pos ⟨he, hbig⟩]
      simp [he]
  rw [hcongr, ← List.filter_filter, List.filter_map]

/-- C8: for collections of more than 50 features, `filterGeoJSONByBounds`
removes every odd-indexed feature before the vertex-in-expanded-bounds test,
so a 60-feature input yields at most 30 output features; the collection the
hook exposes to callers is capped at 100 features after filtering, and input
order is preserved (the served feature list is a sublist of the loaded one). -/
theorem C8_filter_stride_and_cap :
    (∀ (g : FeatureCollection) (b : Bounds), 50 < g.features.length →
      filterGeoJSONByBounds (some g) (some b)
        = some { g with features :=
            (((g.features.enum.filter (fun q => q.1 % 2 = 0)).map Prod.snd).filter
              (featureVertexTest (expandBounds b))) }) ∧
    (∀ (g : FeatureCollection) (b : Bounds), g.features.length = 60 →
      ∀ out : FeatureCollection, filterGeoJSONByBounds (some g) (some b) = some out →
        out.features.length ≤ 30) ∧
    (∀ (g : FeatureCollection) (mb : Option Bounds) (out : FeatureCollection),
      filteredGeoJSON (some g) mb = some out →
      out.features.length ≤ 100 ∧ out.features.Sublist g.features) := by
  have hmain : ∀ (g : FeatureCollection) (b : Bounds), 50 < g.features.length →
      filterGeoJSONByBounds (some g) (some b)
        = some { g with features :=
            (((g.features.enum.filter (fun q => q.1 % 2 = 0)).map Prod.snd).filter
              (featureVertexTest (expandBounds b))) } := by
    intro g b hbig
    rw [filterByBounds_some_some, stride_then_test g b hbig]
  have hsub : ∀ (g : FeatureCollection) (b : Bounds),
      ((g.features.enum.filter (fun q =>
        if q.1 % 2 ≠ 0 ∧ g.features.length > 50 then false
        else featureVertexTest (expandBounds b) q.2)).map Prod.snd).Sublist g.features := by
    intro g b
    have h1 := List.Sublist.map Prod.snd
      (List.filter_sublist (l := g.features.enum) (p := fun q =>
        if q.1 % 2 ≠ 0 ∧ g.features.length > 50 then false
        else featureVertexTest (expandBounds b) q.2))
    rwa [List.enum_map_snd] at h1
  refine ⟨hmain, ?_, ?_⟩
  · intro g b hlen out hout
    rw [hmain g b (by omega)] at hout
    obtain rfl := Option.some_injective _ hout
    show (((g.features.enum.filter (fun q => q.1 % 2 = 0)).map Prod.snd).filter
      (featureVertexTest (expandBounds b))).length ≤ 30
    calc (((g.features.enum.filter (fun q => q.1 % 2 = 0)).map Prod.snd).filter
        (featureVertexTest (expandBounds b))).length
        ≤ ((g.features.enum.filter (fun q => q.1 % 2 = 0)).map Prod.snd).length :=
          List.length_filter_le _ _
    _ = (g.features.enum.filter (fun q => q.1 % 2 = 0)).length := List.length_map _ _
    _ = g.features.enum.countP (fun q => decide (q.1 % 2 = 0)) :=
          (List.countP_eq_length_filter _ _).symm
    _ = (g.features.enum.map Prod.fst).countP (fun i => decide (i % 2 = 0)) := by
          rw [List.countP_map]
          rfl
    _ = (List.range g.features.length).countP (fun i => decide (i % 2 = 0)) := by
          rw [List.enum_map_fst]
    _ = (List.range 60).countP (fun i => decide (i % 2 = 0)) := by rw [hlen]
    _ = 30 := by decide
  · intro g mb out hout
    cases mb with
    | none =>
        simp only [filteredGeoJSON] at hout
        obtain rfl := Option.some_injective _ hout
        constructor
        · show (g.features.take 50).length ≤ 100
          rw [List.length_take]
          omega
        · exact List.take_sublist 50 g.features
    | some b =>
        simp only [filteredGeoJSON, filterByBounds_some_some] at hout
        obtain rfl := Option.some_injective _ hout
        constructor
        · simp only [List.length_take]
          omega
        · exact List.Sublist.trans (List.take_sublist _ _) (hsub g b)

/-- Witness for C8: a 60-feature collection (geometry-less features, which the
vertex test drops) is filtered to at most 30 features. -/
theorem C8_filter_stride_and_cap_witness :
    (FeatureCollection.mk
      (List.replicate 60 ⟨Geometry.other, Properties.empty⟩)).features.length = 60 ∧
    (⟨[]⟩ : FeatureCollection).features.length ≤ 30 :=
  ⟨by simp,
   C8_filter_stride_and_cap.2.1 ⟨List.replicate 60 ⟨Geometry.other, Properties.empty⟩⟩
     ⟨⟨0, 0⟩, ⟨0, 0⟩⟩ (by simp) ⟨[]⟩ rfl⟩

/-! ## C9: the ward import route -/

lemma chunk100_nil : chunk100 [] = [] := by
  rw [chunk100]

lemma chunk100_cons (a : WardRecord) (l : List WardRecord) :
    chunk100 (a :: l) = (a :: l).take 100 :: chunk100 ((a :: l).drop 100) := by
  rw [chunk100]

lemma chunk100_sum (l : List WardRecord) :
    ((chunk100 l).map List.length).sum = l.length := by
  suffices h : ∀ (n : ℕ) (l' : List WardRecord), l'.length = n →
      ((chunk100 l').map List.length).sum = l'.length from h l.length l rfl
  intro n
  induction n using Nat.strong_induction_on with
  | _ n ih =>
    intro l' hl
    cases l' with
    | nil => simp [chunk100_nil]
    | cons a l'' =>
        rw [chunk100_cons, List.map_cons, List.sum_cons]
        rw [ih ((a :: l'').drop 100).length (by rw [← hl]; simp; omega) _ rfl]
        simp only [List.length_take, List.length_drop, List.length_cons]
        omega

lemma runBatches_all_ok (ups : List WardRecord → Bool) (bs : List (List WardRecord))
    (acc total : ℕ) (h : ∀ b ∈ bs, ups b = true) :
    runBatches ups bs acc total = .ok (acc + (bs.map List.length).sum) total := by
  induction bs generalizing acc with
  | nil => simp [runBatches]
  | cons b rest ih =>
      have hstep : runBatches ups (b :: rest) acc total
          = if ups b then runBatches ups rest (acc + b.length) total
            else .badRequest ("Failed to insert ward batch") := rfl
      rw [hstep, if_pos (h b (List.mem_cons_self b rest))]
      rw [ih (acc + b.length) (fun b' hb' => h b' (List.mem_cons_of_mem _ hb'))]
      simp only [List.map_cons, List.sum_cons]
      congr 1
      omega

lemma wardsToInsert_length (features : List Feature) (municipalityId : Option String)
    (tol : ℚ) :
    (wardsToInsert features municipalityId tol).length = features.countP resolvableId := by
  induction features with
  | nil => rfl
  | cons f fs ih =>
      unfold wardsToInsert at ih ⊢
      rw [List.filterMap_cons, List.countP_cons]
      cases hw : wardIdOf f.properties with
      | none => simp [hw, resolvableId, truthy, ih]
      | some s =>
          by_cases hs : s.isEmpty
          · simp [hw, hs, resolvableId, truthy, ih]
          · simp [hw, hs, resolvableId, truthy, ih]

/-- Counterexample to C9 as stated: a 1-feature collection whose only feature
has no resolvable identifier.  The claim, read at this input, predicts a
success report with `importedCount = 0` and `totalFeatures = 1` (and zero
batch upserts, all of which trivially succeed), but the route answers with the
400 error `No valid wards found in GeoJSON` instead of reporting counts. -/
theorem C9_import_counts_cex :
    importWards (some ⟨[⟨Geometry.other, Properties.empty⟩]⟩) none (1/1000)
      (fun _ => true) ≠ ImportResult.ok 0 1 := by
  intro h
  have hbad : ImportResult.badRequest ("No valid wards found in GeoJSON")
      = ImportResult.ok 0 1 := h
  exact ImportResult.noConfusion hbad

/-- C9 (amended): for every imported collection in which all batch upserts
succeed *and at least one feature has a resolvable identifier*, the import
reports `importedCount` equal to the number of features whose identifier
resolves to a truthy value (features lacking one are skipped, never failing
the call) and `totalFeatures` equal to the total number of input features.
When no feature has a resolvable identifier the call instead fails with the
`No valid wards found in GeoJSON` error (see the counterexample). -/
theorem C9_import_counts (g : FeatureCollection) (municipalityId : Option String)
    (tol : ℚ) (ups : List WardRecord → Bool)
    (hups : ∀ b ∈ chunk100 (wardsToInsert g.features municipalityId tol), ups b = true)
    (hsome : ∃ f ∈ g.features, resolvableId f = true) :
    importWards (some g) municipalityId tol ups
      = .ok (g.features.countP resolvableId) g.features.length := by
  have hlen := wardsToInsert_length g.features municipalityId tol
  have hpos : ¬ (wardsToInsert g.features municipalityId tol).length = 0 := by
    rw [hlen]
    obtain ⟨f, hf, hres⟩ := hsome
    have hgt := (List.countP_pos_iff (p := resolvableId) (l := g.features)).mpr
      ⟨f, hf, hres⟩
    omega
  show (if (wardsToInsert g.features municipalityId tol).length = 0
      then ImportResult.badRequest ("No valid wards found in GeoJSON")
      else runBatches ups (chunk100 (wardsToInsert g.features municipalityId tol)) 0
        g.features.length)
      = ImportResult.ok (g.features.countP resolvableId) g.features.length
  rw [if_neg hpos, runBatches_all_ok ups _ 0 _ hups, chunk100_sum, hlen, Nat.zero_add]

/-- Witness for C9 (the spec's 3-feature scenario): feature 2 lacks any
identifier key, so 2 of 3 features are imported. -/
theorem C9_import_counts_witness :
    importWards (some ⟨[
      ⟨Geometry.other, { Properties.empty with id := some "1" }⟩,
      ⟨Geometry.other, Properties.empty⟩,
      ⟨Geometry.other, { Properties.empty with id := some "3" }⟩]⟩)
      none (1/1000) (fun _ => true)
      = ImportResult.ok 2 3 :=
  C9_import_counts
    ⟨[⟨Geometry.other, { Properties.empty with id := some "1" }⟩,
      ⟨Geometry.other, Properties.empty⟩,
      ⟨Geometry.other, { Properties.empty with id := some "3" }⟩]⟩
    none (1/1000) (fun _ => true) (fun b _ => rfl)
    ⟨⟨Geometry.other, { Properties.empty with id := some "1" }⟩, by simp, rfl⟩

/-! ## C10: the no-bounds truncation -/

/-- C10: when no viewport bounds are supplied, the hook serves the first 50
features of the loaded collection — `min 50 n` features for an `n`-feature
collection, not the full set and not the 100-feature filtered cap — while the
reported `totalFeatures` still counts the entire unfiltered collection. -/
theorem C10_no_bounds_truncation (g : FeatureCollection) :
    filteredGeoJSON (some g) none = some ⟨g.features.take 50⟩ ∧
    (g.features.take 50).length = min 50 g.features.length ∧
    totalFeatures (some g) = g.features.length :=
  ⟨rfl, List.length_take 50 g.features, rfl⟩
